import Mathlib

/-!
# PFASST coordination core: a shallow embedding and its properties

Embedded sources:

* `include/pfasst/interfaces_impl.hpp`  (`IStatus`, default `ISweeper`/`ITransfer` bodies)
* `include/pfasst/encap/encapsulation_impl.hpp`  (`Encapsulation::mat_apply`)
* `include/pfasst/controller.hpp`, `include/pfasst/controller_impl.hpp`  (`Controller`,
  `LevelIter`)

Conventions.

* `size_t` is a natural number below `2^64`; every `size_t` operation that can wrap is written
  with an explicit `% 2^64`.  `int` is an integer in `[-2^31, 2^31)`; conversions between the two
  are written out (`size_t_to_int`, `int_to_size_t`).
* The template parameter `time` is an exact-arithmetic scalar: a field `K`.
* `shared_ptr<X>` is `Option X` (`none` is the null pointer); the payload is the identity of the
  object pointed to.
* A failed `assert` or an exception is an `Except` error.  `std::deque::operator[]` checks
  nothing: within the bounds it yields the stored element, and past the end its outcome is left
  open (a parameter `beyond` of every accessor, which may be any value or any failure).
-/

namespace pfasst

/-! ## Machine integers -/

/-- Number of values of a `size_t`. -/
def SIZE_MOD : Nat := 2 ^ 64

/-- Conversion of a mathematical integer to `int` (two's complement, 32 bit). -/
def wrap_int (x : Int) : Int := (x + 2 ^ 31) % 2 ^ 32 - 2 ^ 31

/-- Conversion `size_t → int`, as performed when a `size_t` is passed for an `int` parameter. -/
def size_t_to_int (n : Nat) : Int := wrap_int (n : Int)

/-- Conversion `int → size_t`, as performed when an `int` is passed for a `size_t` parameter. -/
def int_to_size_t (x : Int) : Nat := (x % (2 ^ 64 : Int)).toNat

/-- Subtraction on `size_t` (wraps modulo `2^64`). -/
def size_t_sub (a b : Nat) : Nat := (a + SIZE_MOD - b % SIZE_MOD) % SIZE_MOD

/-- Addition on `size_t` (wraps modulo `2^64`). -/
def size_t_add (a b : Nat) : Nat := (a + b) % SIZE_MOD

/-! ## Errors -/

/-- Ways in which a call can fail to return normally. -/
inductive Failure where
  /-- Exception `throw NotImplementedYet(msg)` -/
  | NotImplementedYet (msg : String)
  /-- Exception `throw ValueError(msg)` -/
  | ValueError (msg : String)
  /-- a failed `assert(...)` -/
  | assertion
  /-- an element access outside the bounds of a container -/
  | out_of_range
  deriving DecidableEq, Repr

/-! ## Status protocol (`interfaces_impl.hpp`) -/

/-- The part of `ICommunicator` that `IStatus` consults: `int rank()`. -/
structure ICommunicator where
  /-- result of `rank()` -/
  rank : Int

/-- An `IStatus` object: its communicator and the result of the virtual
`get_converged(int rank)` for every rank. -/
structure IStatus where
  /-- the communicator installed by `set_comm` -/
  comm : ICommunicator
  /-- result of `get_converged(rank)` -/
  get_converged : Int → Bool

/-- Embeds `IStatus::set_comm`. -/
def IStatus.set_comm (st : IStatus) (comm : ICommunicator) : IStatus :=
  { st with comm := comm }

/-- Embeds `IStatus::previous_is_iterating`. -/
def IStatus.previous_is_iterating (st : IStatus) : Bool :=
  if st.comm.rank = 0 then
    false
  else
    !st.get_converged (st.comm.rank - 1)

/-- Embeds `IStatus::keep_iterating`. -/
def IStatus.keep_iterating (st : IStatus) : Bool :=
  if st.comm.rank = 0 then
    !st.get_converged 0
  else
    (!st.get_converged st.comm.rank) || (!st.get_converged (st.comm.rank - 1))

/-- The status object of rank `r` under the flag assignment `flags`. -/
def status_at (r : Int) (flags : Int → Bool) : IStatus :=
  { comm := { rank := r }, get_converged := flags }

/-! ## Encapsulation (`encap/encapsulation_impl.hpp`) -/

/-- The virtual methods of `Encapsulation<time>` that `mat_apply` dispatches to.  Encapsulation
objects live in a program state `σ` and are addressed by pointers of type `Ptr`;
`zero p` is `p->zero()` and `saxpy p c x` is `p->saxpy(c, x)`. -/
structure EncapMethods (K Ptr σ : Type) where
  /-- Method `void zero()` -/
  zero : Ptr → σ → Except Failure σ
  /-- Method `void saxpy(time a, shared_ptr<const Encapsulation<time>> x)` -/
  saxpy : Ptr → K → Ptr → σ → Except Failure σ

/-- Body of the inner loop of `mat_apply` for the indices `n`, `m`. -/
def mat_apply_body {K Ptr σ : Type} [Field K] [DecidableEq K] (E : EncapMethods K Ptr σ)
    (dst : List Ptr) (a : K) (mat : Nat → Nat → K) (src : List Ptr) (n : Nat)
    (st : σ) (m : Nat) : Except Failure σ :=
  let s := mat n m
  if s ≠ 0 then
    match dst[n]?, src[m]? with
    | some d, some x => E.saxpy d (a * s) x st
    | _, _ => .error .out_of_range
  else
    pure st

/-- Embeds `Encapsulation::mat_apply(dst, a, mat, src, zero)`.  The matrix is given by its entry function
`mat n m` (the `Matrix<time>` type is declared outside the embedded sources). -/
def mat_apply {K Ptr σ : Type} [Field K] [DecidableEq K] (E : EncapMethods K Ptr σ)
    (dst : List Ptr) (a : K) (mat : Nat → Nat → K) (src : List Ptr) (zero : Bool)
    (st : σ) : Except Failure σ := do
  let ndst := dst.length
  let nsrc := src.length
  let st ← if zero then dst.foldlM (fun st elem => E.zero elem st) st else pure st
  (List.range ndst).foldlM
    (fun st n => (List.range nsrc).foldlM (mat_apply_body E dst a mat src n) st) st

/-- Encapsulations that implement the vector-space contract: the program state maps every
object (address) to its value in the vector space `V`; `zero()` stores the additive identity and
`saxpy(a, x)` stores `this + a • x`. -/
def vector_space_methods (K V : Type) [Field K] [AddCommGroup V] [Module K V] :
    EncapMethods K Nat (Nat → V) where
  zero p h := .ok (Function.update h p 0)
  saxpy p c x h := .ok (Function.update h p (h p + c • h x))

/-! ## Controller (`controller.hpp`, `controller_impl.hpp`) -/

/-- Data members of `Controller<time>`: the two deques of shared pointers and the scalars
initialised by the constructor in `controller_impl.hpp`.  `S` and `T` are the identities of
sweeper and transfer objects. -/
structure Controller (K S T : Type) where
  /-- Member `deque<shared_ptr<ISweeper<time>>> levels` -/
  levels : List (Option S)
  /-- Member `deque<shared_ptr<ITransfer<time>>> transfer` -/
  transfer : List (Option T)
  /-- Member `size_t step` -/
  step : Nat
  /-- Member `size_t iteration` -/
  iteration : Nat
  /-- Member `size_t max_iterations` -/
  max_iterations : Nat
  /-- Member `time t` -/
  t : K
  /-- Member `time dt` -/
  dt : K
  /-- Member `time tend` -/
  tend : K

namespace Controller

variable {K S T : Type} [Field K]

/-- Embeds `Controller::Controller()` (both deques start empty). -/
def new : Controller K S T :=
  { levels := [], transfer := [], step := 0, iteration := 0, max_iterations := 0,
    t := 0, dt := 0, tend := 0 }

/-- Embeds `Controller::set_duration(t0, tend, dt, niters)`. -/
def set_duration (c : Controller K S T) (t0 tend dt : K) (niters : Nat) : Controller K S T :=
  { c with t := t0, tend := tend, dt := dt, step := 0, iteration := 0, max_iterations := niters }

/-- Embeds `Controller::add_level(swpr, trnsfr, coarse)`. -/
def add_level (c : Controller K S T) (swpr : Option S) (trnsfr : Option T) (coarse : Bool) :
    Controller K S T :=
  if coarse then
    { c with levels := swpr :: c.levels, transfer := trnsfr :: c.transfer }
  else
    { c with levels := c.levels ++ [swpr], transfer := c.transfer ++ [trnsfr] }

/-- Embeds `Controller::nlevels()`. -/
def nlevels (c : Controller K S T) : Nat := c.levels.length

/-- Embeds `Controller::get_step()`. -/
def get_step (c : Controller K S T) : Nat := c.step

/-- Embeds `Controller::set_step(n)`: `t += (n - step) * dt; step = n;` where `n - step` is a `size_t`
subtraction whose result is converted to `time`. -/
def set_step (c : Controller K S T) (n : Nat) : Controller K S T :=
  { c with t := c.t + ((size_t_sub n c.step : Nat) : K) * c.dt, step := n }

/-- Embeds `Controller::get_time_step()`. -/
def get_time_step (c : Controller K S T) : K := c.dt

/-- Embeds `Controller::get_time()` of `controller_impl.hpp`. -/
def get_time (c : Controller K S T) : K := c.t

/-- Embeds `Controller::advance_time(nsteps)`: `step += nsteps; t += nsteps * dt;`. -/
def advance_time (c : Controller K S T) (nsteps : Nat) : Controller K S T :=
  { c with step := size_t_add c.step nsteps, t := c.t + (nsteps : K) * c.dt }

/-- Embeds `Controller::get_end_time()`. -/
def get_end_time (c : Controller K S T) : K := c.tend

/-- Embeds `Controller::get_iteration()`. -/
def get_iteration (c : Controller K S T) : Nat := c.iteration

/-- Embeds `Controller::set_iteration(iter)`. -/
def set_iteration (c : Controller K S T) (iter : Nat) : Controller K S T :=
  { c with iteration := iter }

/-- Embeds `Controller::advance_iteration()`: `iteration++`. -/
def advance_iteration (c : Controller K S T) : Controller K S T :=
  { c with iteration := size_t_add c.iteration 1 }

/-- Embeds `Controller::get_max_iterations()`. -/
def get_max_iterations (c : Controller K S T) : Nat := c.max_iterations

end Controller

/-- Embeds `dynamic_pointer_cast<R>(p)`: `p` itself when it is non-null and the object it points to is
an `R` (decided by `isR`), the null pointer otherwise. -/
def dynamic_pointer_cast {α : Type} (isR : α → Bool) : Option α → Option α
  | some x => if isR x then some x else none
  | none => none

/-- Element access `d[i]` on a deque, `std::deque::operator[]`, which performs no bounds check.
Within the bounds it yields the stored element.  Past the end the behaviour is undefined: the
outcome is whatever `beyond` gives for that position, and `beyond` is arbitrary (any value read
from the memory there, or any failure), so nothing is promised about it. -/
def deque_at {α : Type} (d : List α) (beyond : Nat → Except Failure α) (i : Nat) :
    Except Failure α :=
  match d[i]? with
  | some x => .ok x
  | none => beyond i

namespace Controller

variable {K S T : Type} [Field K]

/-- Embeds `Controller::get_level<R>(level)`:
`shared_ptr<R> r = dynamic_pointer_cast<R>(levels[level]); assert(r); return r;`. -/
def get_level (c : Controller K S T) (beyond : Nat → Except Failure (Option S))
    (isR : S → Bool) (level : Nat) : Except Failure (Option S) := do
  let p ← deque_at c.levels beyond level
  let r := dynamic_pointer_cast isR p
  if r.isSome then pure r else .error .assertion

/-- Embeds `Controller::get_finest<R>()`: `get_level<R>(nlevels()-1)`. -/
def get_finest (c : Controller K S T) (beyond : Nat → Except Failure (Option S))
    (isR : S → Bool) : Except Failure (Option S) :=
  c.get_level beyond isR (size_t_sub c.nlevels 1)

/-- Embeds `Controller::get_coarsest<R>()`: `get_level<R>(0)`. -/
def get_coarsest (c : Controller K S T) (beyond : Nat → Except Failure (Option S))
    (isR : S → Bool) : Except Failure (Option S) :=
  c.get_level beyond isR 0

/-- Embeds `Controller::get_transfer<R>(level)`:
`shared_ptr<R> r = dynamic_pointer_cast<R>(transfer[level]); assert(r); return r;`. -/
def get_transfer (c : Controller K S T) (beyond : Nat → Except Failure (Option T))
    (isR : T → Bool) (level : Nat) : Except Failure (Option T) := do
  let p ← deque_at c.transfer beyond level
  let r := dynamic_pointer_cast isR p
  if r.isSome then pure r else .error .assertion

end Controller

/-- Embeds `Controller::LevelIter`: the `int level`; the back-reference `ts` is passed explicitly to the
accessors that use it. -/
structure LevelIter where
  /-- Member `int level` -/
  level : Int
  deriving DecidableEq, Repr

namespace LevelIter

variable {K S T : Type} [Field K]

/-- Embeds `LevelIter::current<R>()`: `ts->get_level<R>(level)` (the `int` is converted to `size_t`). -/
def current (l : LevelIter) (ts : Controller K S T)
    (beyond : Nat → Except Failure (Option S)) (isR : S → Bool) :
    Except Failure (Option S) :=
  ts.get_level beyond isR (int_to_size_t l.level)

/-- Embeds `LevelIter::operator++`: `level++` (wrapping at the end of the `int` range). -/
def incr (l : LevelIter) : LevelIter := { level := wrap_int (l.level + 1) }

/-- Embeds `LevelIter::operator<=`. -/
def le (l i : LevelIter) : Bool := decide (l.level ≤ i.level)

end LevelIter

namespace Controller

variable {K S T : Type} [Field K]

/-- Embeds `Controller::finest()`: `LevelIter(nlevels() - 1, this)`; the `size_t` difference is
converted to the constructor's `int` parameter. -/
def finest (c : Controller K S T) : LevelIter :=
  { level := size_t_to_int (size_t_sub c.nlevels 1) }

/-- Embeds `Controller::coarsest()`: `LevelIter(0, this)`. -/
def coarsest (_c : Controller K S T) : LevelIter := { level := 0 }

/-- The loop `for (auto l = coarsest(); l <= finest(); ++l) body`, started at cursor `l`: the
cursors at which the body runs, or `none` when `fuel` tests of the loop condition do not
suffice to leave the loop. -/
def level_loop (c : Controller K S T) : Nat → LevelIter → Option (List LevelIter)
  | 0, _ => none
  | fuel + 1, l =>
    if l.le c.finest then (level_loop c fuel l.incr).map (fun rest => l :: rest) else some []

end Controller

/-! ### Sequences of time-bookkeeping calls -/

/-- A call that changes the step/iteration/time state of a controller. -/
inductive TimeCall where
  /-- Call `advance_time(k)` -/
  | advance_time (k : Nat)
  /-- Call `set_step(n)` -/
  | set_step (n : Nat)
  /-- Call `advance_iteration()` -/
  | advance_iteration
  /-- Call `set_iteration(i)` -/
  | set_iteration (i : Nat)
  deriving DecidableEq, Repr

namespace TimeCall

variable {K S T : Type} [Field K]

/-- Perform one call. -/
def run (c : Controller K S T) : TimeCall → Controller K S T
  | advance_time k => c.advance_time k
  | set_step n => c.set_step n
  | advance_iteration => c.advance_iteration
  | set_iteration i => c.set_iteration i

/-- Perform a sequence of calls, first call first. -/
def run_all (c : Controller K S T) (calls : List TimeCall) : Controller K S T :=
  calls.foldl run c

/-- The call moves the step index forward without overflow: `advance_time(k)` with
`step + k < 2^64`, `set_step(n)` with `step ≤ n < 2^64`; iteration calls are unrestricted. -/
def forward (c : Controller K S T) : TimeCall → Prop
  | advance_time k => c.step + k < SIZE_MOD
  | set_step n => c.step ≤ n ∧ n < SIZE_MOD
  | advance_iteration => True
  | set_iteration _ => True

/-- Every call of the sequence is `forward` in the state in which it is made. -/
def all_forward (c : Controller K S T) : List TimeCall → Prop
  | [] => True
  | call :: rest => forward c call ∧ all_forward (run c call) rest

end TimeCall

/-! ### The controller of `controller.hpp` -/

/-- Embeds `Controller::RangeIter`. -/
structure RangeIter where
  /-- Member `size_t i` -/
  i : Nat
  /-- Member `size_t n` -/
  n : Nat
  deriving DecidableEq, Repr

/-- The members that `controller.hpp` uses for time bookkeeping: `dt` and the two range
iterators `steps`, `iterations`. -/
structure HeaderController (K : Type) where
  /-- Member `time dt` -/
  dt : K
  /-- Member `RangeIter steps` -/
  steps : RangeIter
  /-- Member `RangeIter iterations` -/
  iterations : RangeIter

namespace HeaderController

variable {K : Type} [Field K]

/-- Embeds `get_step()` of `controller.hpp`: `steps.i`. -/
def get_step (c : HeaderController K) : Nat := c.steps.i

/-- Embeds `get_time_step()` of `controller.hpp`. -/
def get_time_step (c : HeaderController K) : K := c.dt

/-- Embeds `get_time()` of `controller.hpp`: `get_step() * get_time_step()`. -/
def get_time (c : HeaderController K) : K := (c.get_step : K) * c.get_time_step

end HeaderController

/-! ## Auxiliary definitions used in the statements -/

/-- Value stored for the `m`-th source pointer (zero when `m` is not an index of `src`). -/
def src_val {V : Type} [Zero V] (h : Nat → V) (src : List Nat) (m : Nat) : V :=
  match src[m]? with
  | some x => h x
  | none => 0

/-- A hierarchy of `2^31 + 1` levels (every slot holds the sweeper `0` and the transfer `0`). -/
def huge_hierarchy : Controller ℚ Nat Nat :=
  { levels := List.replicate (2 ^ 31 + 1) (some 0),
    transfer := List.replicate (2 ^ 31 + 1) (some 0),
    step := 0, iteration := 0, max_iterations := 0, t := 0, dt := 0, tend := 0 }

/-- The controller after `set_duration(0, 10, 1, 5)` and `advance_time(1)`: step 1, time 1,
step size 1. -/
def after_one_step : Controller ℚ Nat Nat :=
  (Controller.new.set_duration 0 10 1 5).advance_time 1

/-- The cursor `LevelIter(j, ts)` for a level index `j`. -/
def cursor_at (j : Nat) : LevelIter := { level := (j : Int) }

/-- A hierarchy of two levels: sweeper `10` (coarsest, no transfer) and sweeper `11` with
transfer `21`. -/
def two_levels : Controller ℚ Nat Nat :=
  (Controller.new.add_level (some 11) (some 21) true).add_level (some 10) none true

/-! ## Default method bodies (`interfaces_impl.hpp`, `encap/encapsulation_impl.hpp`) -/

namespace ISweeper

/-- Embeds the default `ISweeper::save(bool initial_only)`. -/
def save {σ : Type} (_initial_only : Bool) (_st : σ) : Except Failure σ :=
  .error (.NotImplementedYet "mlsdc/pfasst")

/-- Embeds the default `ISweeper::spread()`. -/
def spread {σ : Type} (_st : σ) : Except Failure σ :=
  .error (.NotImplementedYet "pfasst")

/-- Embeds the default `ISweeper::post(comm, tag)`: an empty body. -/
def post {σ : Type} (_comm : Option ICommunicator) (_tag : Int) (st : σ) : Except Failure σ :=
  .ok st

/-- Embeds the default `ISweeper::send(comm, tag, blocking)`. -/
def send {σ : Type} (_comm : Option ICommunicator) (_tag : Int) (_blocking : Bool) (_st : σ) :
    Except Failure σ :=
  .error (.NotImplementedYet "pfasst")

/-- Embeds the default `ISweeper::recv(comm, tag, blocking)`. -/
def recv {σ : Type} (_comm : Option ICommunicator) (_tag : Int) (_blocking : Bool) (_st : σ) :
    Except Failure σ :=
  .error (.NotImplementedYet "pfasst")

/-- Embeds the default `ISweeper::broadcast(comm)`. -/
def broadcast {σ : Type} (_comm : Option ICommunicator) (_st : σ) : Except Failure σ :=
  .error (.NotImplementedYet "pfasst")

end ISweeper

namespace ITransfer

/-- Embeds the default `ITransfer::interpolate_initial(dst, src)`. -/
def interpolate_initial {S σ : Type} (_dst _src : Option S) (_st : σ) : Except Failure σ :=
  .error (.NotImplementedYet "pfasst")

/-- Embeds the default `ITransfer::restrict_initial(dst, src)`. -/
def restrict_initial {S σ : Type} (_dst _src : Option S) (_st : σ) : Except Failure σ :=
  .error (.NotImplementedYet "pfasst")

end ITransfer

namespace Encapsulation

/-- Embeds the default `Encapsulation::post(comm, tag)`: an empty body. -/
def post {σ : Type} (_comm : Option ICommunicator) (_tag : Int) (st : σ) : Except Failure σ :=
  .ok st

/-- Embeds the default `Encapsulation::send(comm, tag, blocking)`. -/
def send {σ : Type} (_comm : Option ICommunicator) (_tag : Int) (_blocking : Bool) (_st : σ) :
    Except Failure σ :=
  .error (.NotImplementedYet "pfasst")

/-- Embeds the default `Encapsulation::recv(comm, tag, blocking)`. -/
def recv {σ : Type} (_comm : Option ICommunicator) (_tag : Int) (_blocking : Bool) (_st : σ) :
    Except Failure σ :=
  .error (.NotImplementedYet "pfasst")

/-- Embeds the default `Encapsulation::broadcast(comm)`. -/
def broadcast {σ : Type} (_comm : Option ICommunicator) (_st : σ) : Except Failure σ :=
  .error (.NotImplementedYet "pfasst")

/-- Embeds the default `Encapsulation::zero()`. -/
def zero {σ : Type} (_st : σ) : Except Failure σ :=
  .error (.NotImplementedYet "encap")

/-- Embeds the default `Encapsulation::copy(x)`. -/
def copy {Ptr σ : Type} (_x : Option Ptr) (_st : σ) : Except Failure σ :=
  .error (.NotImplementedYet "encap")

/-- Embeds the default `Encapsulation::norm0()`, which returns a `time`. -/
def norm0 {K σ : Type} (_st : σ) : Except Failure K :=
  .error (.NotImplementedYet "norm0")

/-- Embeds the default `Encapsulation::saxpy(a, x)`. -/
def saxpy {K Ptr σ : Type} (_a : K) (_x : Option Ptr) (_st : σ) : Except Failure σ :=
  .error (.NotImplementedYet "encap")

/-- The method table of objects that keep the default `zero()` and `saxpy()`. -/
def default_methods (K Ptr σ : Type) : EncapMethods K Ptr σ where
  zero _ st := Encapsulation.zero st
  saxpy _ a x st := Encapsulation.saxpy a (some x) st

end Encapsulation

/-! ## `RangeIter` (`controller.hpp`) -/

namespace RangeIter

/-- Embeds `RangeIter::set_size(n)`. -/
def set_size (r : RangeIter) (n : Nat) : RangeIter := { r with n := n }

/-- Embeds `RangeIter::reset(i)`. -/
def reset (r : RangeIter) (i : Nat) : RangeIter := { r with i := i }

/-- Embeds `RangeIter::valid()`: `i < n`. -/
def valid (r : RangeIter) : Bool := decide (r.i < r.n)

/-- Embeds `RangeIter::next()`: `i++`. -/
def next (r : RangeIter) : RangeIter := { r with i := size_t_add r.i 1 }

/-- The loop `while (valid()) next();`: the number of times the body runs and the final
iterator, or `none` when `fuel` tests of the loop condition do not suffice to leave the loop. -/
def while_valid_next : Nat → RangeIter → Option (Nat × RangeIter)
  | 0, _ => none
  | fuel + 1, r =>
    if r.valid then (while_valid_next fuel r.next).map (fun p => (p.1 + 1, p.2))
    else some (0, r)

end RangeIter

/-- The controller one iteration into step 1: `after_one_step` followed by
`advance_iteration()`. -/
def in_first_iteration : Controller ℚ Nat Nat := after_one_step.advance_iteration

/-- Convergence flags with ranks 1 and 2 converged and rank 0 (and every other rank) not. -/
def flags_one_two (i : Int) : Bool := decide (i = 1 ∨ i = 2)

/-! ## Sequences of `add_level` calls -/

/-- The arguments of one call `add_level(swpr, trnsfr, coarse)`. -/
structure AddLevelCall (S T : Type) where
  /-- Argument `swpr` -/
  swpr : Option S
  /-- Argument `trnsfr` -/
  trnsfr : Option T
  /-- Argument `coarse` -/
  coarse : Bool

namespace Controller

variable {K S T : Type} [Field K]

/-- Perform a sequence of `add_level` calls, first call first. -/
def add_levels (c : Controller K S T) (calls : List (AddLevelCall S T)) : Controller K S T :=
  calls.foldl (fun c k => c.add_level k.swpr k.trnsfr k.coarse) c

end Controller

/-- A null transfer is passed only on calls that insert at the coarse end. -/
def null_only_at_coarse_end {S T : Type} (calls : List (AddLevelCall S T)) : Prop :=
  ∀ k ∈ calls, k.trnsfr = none → k.coarse = true

/-- A null transfer is passed only on a call that inserts at the coarse end and is followed by
no further coarse-end insertion. -/
def null_only_at_last_coarse_end {S T : Type} : List (AddLevelCall S T) → Prop
  | [] => True
  | k :: rest =>
    (k.trnsfr = none → k.coarse = true ∧ ∀ k1 ∈ rest, k1.coarse = false) ∧
      null_only_at_last_coarse_end rest

/-- Two calls `add_level(s)` with the default arguments (null transfer, coarse end). -/
def two_default_calls : List (AddLevelCall Nat Nat) :=
  [{ swpr := some 11, trnsfr := none, coarse := true },
   { swpr := some 10, trnsfr := none, coarse := true }]

/-- A coarse-end call with the null transfer followed by a fine-end call with transfer `21`. -/
def coarse_then_fine_calls : List (AddLevelCall Nat Nat) :=
  [{ swpr := some 10, trnsfr := none, coarse := true },
   { swpr := some 11, trnsfr := some 21, coarse := false }]

/-! ## The remaining `LevelIter` accessors (`controller.hpp`) -/

namespace LevelIter

variable {K S T : Type} [Field K]

/-- Embeds `LevelIter::coarse<R>()`: `ts->get_level<R>(level - 1)`; the difference is an
`int`. -/
def coarse (l : LevelIter) (ts : Controller K S T)
    (beyond : Nat → Except Failure (Option S)) (isR : S → Bool) :
    Except Failure (Option S) :=
  ts.get_level beyond isR (int_to_size_t (wrap_int (l.level - 1)))

/-- Embeds `LevelIter::transfer<R>()`: `ts->get_transfer<R>(level)`. -/
def transfer (l : LevelIter) (ts : Controller K S T)
    (beyond : Nat → Except Failure (Option T)) (isR : T → Bool) :
    Except Failure (Option T) :=
  ts.get_transfer beyond isR (int_to_size_t l.level)

end LevelIter

/-- A call of one of the two virtual methods that `mat_apply` dispatches to. -/
inductive EncapCall (K Ptr : Type) where
  /-- Call `p->zero()` -/
  | zero (p : Ptr)
  /-- Call `p->saxpy(c, x)` -/
  | saxpy (p : Ptr) (c : K) (x : Ptr)
  deriving DecidableEq, Repr

namespace EncapCall

/-- Perform one call with the method table `E`. -/
def run {K Ptr σ : Type} (E : EncapMethods K Ptr σ) (st : σ) : EncapCall K Ptr → Except Failure σ
  | zero p => E.zero p st
  | saxpy p c x => E.saxpy p c x st

/-- Whether the call is a `saxpy` call. -/
def is_saxpy {K Ptr : Type} : EncapCall K Ptr → Bool
  | zero _ => false
  | saxpy _ _ _ => true

end EncapCall

/-- The call sequence that the description of `mat_apply` prescribes: if `zero` is set, `zero()`
on `dst[0], dst[1], ...` in index order; then, for `n` ascending and within each `n` for `m`
ascending, one call `dst[n].saxpy(a * M[n,m], src[m])` for each entry with `M[n,m] ≠ 0` and no
call for an entry with `M[n,m] = 0`. -/
def mat_apply_calls {K Ptr : Type} [Field K] [DecidableEq K] (dst : List Ptr) (a : K)
    (mat : Nat → Nat → K) (src : List Ptr) (zero : Bool) : List (EncapCall K Ptr) :=
  (if zero then dst.map EncapCall.zero else []) ++
    (List.finRange dst.length).flatMap (fun n =>
      (List.finRange src.length).flatMap (fun m =>
        if mat n m ≠ 0 then [EncapCall.saxpy (dst.get n) (a * mat n m) (src.get m)] else []))

/-- Method table that only records the calls it receives, in the order of arrival. -/
def recording_methods (K Ptr : Type) : EncapMethods K Ptr (List (EncapCall K Ptr)) where
  zero p log := .ok (log ++ [EncapCall.zero p])
  saxpy p c x log := .ok (log ++ [EncapCall.saxpy p c x])

/-! ## Sweeper back-references and `Controller::setup` -/

/-- A call that `Controller::setup()` makes on a sweeper, together with the level index at which
the sweeper was fetched. -/
inductive SetupEvent (S : Type) where
  /-- Call `s->set_controller(ctrl)` on the sweeper `s` fetched with `get_level(level)` -/
  | set_controller (level : Nat) (s : S) (ctrl : Nat)
  /-- Call `s->setup(coarse)` on the sweeper `s` fetched with `get_level(level)` -/
  | setup (level : Nat) (s : S) (coarse : Bool)
  deriving DecidableEq, Repr

/-- The part of the program state that `Controller::setup()` touches: the member
`Controller<time>* controller` of every sweeper object (`none` is `nullptr`) and the record of
the calls made so far. -/
structure SweeperWorld (S : Type) where
  /-- Member `ISweeper::controller` of each sweeper object -/
  controller : S → Option Nat
  /-- The calls made on sweepers so far, oldest first -/
  events : List (SetupEvent S)

namespace SweeperWorld

/-- All sweepers as left by the constructor `ISweeper::ISweeper()`: `controller(nullptr)`. -/
def initial {S : Type} : SweeperWorld S := { controller := fun _ => none, events := [] }

/-- Append one call to the record. -/
def record {S : Type} (w : SweeperWorld S) (e : SetupEvent S) : SweeperWorld S :=
  { w with events := w.events ++ [e] }

end SweeperWorld

namespace ISweeper

/-- Embeds `ISweeper::set_controller(ctrl)` on the sweeper `s`. -/
def set_controller {S : Type} [DecidableEq S] (s : S) (ctrl : Option Nat) (w : SweeperWorld S) :
    SweeperWorld S :=
  { w with controller := Function.update w.controller s ctrl }

/-- Embeds `ISweeper::get_controller()` on the sweeper `s`:
`assert(this->controller); return this->controller;`. -/
def get_controller {S : Type} (s : S) (w : SweeperWorld S) : Except Failure Nat :=
  match w.controller s with
  | some ctrl => .ok ctrl
  | none => .error .assertion

/-- Embeds the default `ISweeper::setup(bool coarse)`: an empty body. -/
def setup {σ : Type} (_coarse : Bool) (st : σ) : Except Failure σ := .ok st

end ISweeper

namespace Controller

variable {K S T : Type} [Field K]

/-- Body of the loop of `Controller::setup()` at cursor `l`:
`l.current()->set_controller(this); l.current()->setup();`.  The virtual `setup` of the sweepers
is `sweeper_setup`, and `coarse_default` is the default argument that its declaration (outside
the embedded sources) supplies. -/
def setup_body [DecidableEq S] (c : Controller K S T)
    (beyond : Nat → Except Failure (Option S)) (this : Nat)
    (sweeper_setup : S → Bool → SweeperWorld S → Except Failure (SweeperWorld S))
    (coarse_default : Bool) (l : LevelIter) (w : SweeperWorld S) :
    Except Failure (SweeperWorld S) := do
  let p ← l.current c beyond (fun _ => true)
  let w ← match p with
    | some s =>
      pure ((ISweeper.set_controller s (some this) w).record
        (SetupEvent.set_controller (int_to_size_t l.level) s this))
    | none => .error .assertion
  let q ← l.current c beyond (fun _ => true)
  match q with
  | some s =>
    sweeper_setup s coarse_default
      (w.record (SetupEvent.setup (int_to_size_t l.level) s coarse_default))
  | none => .error .assertion

/-- The loop of `Controller::setup()` started at cursor `l`:
`for (; l <= finest(); ++l) body`; `none` when `fuel` tests of the loop condition do not suffice
to leave the loop. -/
def setup_from [DecidableEq S] (c : Controller K S T)
    (beyond : Nat → Except Failure (Option S)) (this : Nat)
    (sweeper_setup : S → Bool → SweeperWorld S → Except Failure (SweeperWorld S))
    (coarse_default : Bool) :
    Nat → LevelIter → SweeperWorld S → Option (Except Failure (SweeperWorld S))
  | 0, _, _ => none
  | fuel + 1, l, w =>
    if l.le c.finest then
      match setup_body c beyond this sweeper_setup coarse_default l w with
      | .ok w1 => setup_from c beyond this sweeper_setup coarse_default fuel l.incr w1
      | .error e => some (.error e)
    else some (.ok w)

/-- Embeds `Controller::setup()` for the controller at address `this`. -/
def setup [DecidableEq S] (c : Controller K S T)
    (beyond : Nat → Except Failure (Option S)) (this : Nat)
    (sweeper_setup : S → Bool → SweeperWorld S → Except Failure (SweeperWorld S))
    (coarse_default : Bool) (fuel : Nat) (w : SweeperWorld S) :
    Option (Except Failure (SweeperWorld S)) :=
  setup_from c beyond this sweeper_setup coarse_default fuel c.coarsest w

end Controller

/-- The calls that the description of `setup()` prescribes for the sweepers `sw` stored from
level index `i` on: at each level, in increasing order, first `set_controller(this)` and then
`setup()`. -/
def setup_events {S : Type} (this : Nat) (coarse_default : Bool) :
    Nat → List S → List (SetupEvent S)
  | _, [] => []
  | i, s :: rest =>
    SetupEvent.set_controller i s this :: SetupEvent.setup i s coarse_default ::
      setup_events this coarse_default (i + 1) rest

/-- A hierarchy whose only level holds the null pointer. -/
def null_level : Controller ℚ Nat Nat := Controller.new.add_level none none true

/-- The controller at the last representable step index: `set_duration(0, 10, 1, 5)` followed
by `set_step(2^64 - 1)`. -/
def at_last_step : Controller ℚ Nat Nat :=
  (Controller.new.set_duration 0 10 1 5).set_step (2 ^ 64 - 1)

/-- Memory past the end of a deque that happens to hold a pointer to the object `99`. -/
def stray_pointer : Nat → Except Failure (Option Nat) := fun _ => .ok (some 99)

/-- C1: at every rank `r ≥ 0`, `keep_iterating()` is true iff rank `r` has not converged or
(`r > 0` and rank `r-1` has not converged); at rank 0 it is the negation of rank 0's flag, and at
`r > 0` with rank `r` converged and rank `r-1` not converged it is true. -/
theorem keep_iterating_iff (r : Int) (hr : 0 ≤ r) (flags : Int → Bool) :
    ((status_at r flags).keep_iterating = true ↔
        (flags r = false ∨ (0 < r ∧ flags (r - 1) = false)))
    ∧ (status_at 0 flags).keep_iterating = !flags 0
    ∧ (0 < r → flags r = true → flags (r - 1) = false →
        (status_at r flags).keep_iterating = true) := by
  refine ⟨?_, ?_, ?_⟩
  · rcases eq_or_lt_of_le hr with h0 | hpos
    · subst h0
      simp [IStatus.keep_iterating, status_at]
    · have hne : r ≠ 0 := ne_of_gt hpos
      simp [IStatus.keep_iterating, status_at, hne, hpos]
  · simp [IStatus.keep_iterating, status_at]
  · intro hpos _ hprev
    have hne : r ≠ 0 := ne_of_gt hpos
    simp [IStatus.keep_iterating, status_at, hne, hprev]

/-- Witness for C1: rank 1 converged, rank 0 not converged. -/
theorem keep_iterating_iff_witness :
    (0 : Int) ≤ 1 ∧
    (((status_at 1 (fun i => decide (i = 1))).keep_iterating = true ↔
        ((fun i => decide (i = 1)) (1 : Int) = false ∨
          ((0 : Int) < 1 ∧ (fun i => decide (i = 1)) ((1 : Int) - 1) = false)))
    ∧ (status_at 0 (fun i => decide (i = 1))).keep_iterating = !(fun i => decide (i = 1)) (0 : Int)
    ∧ ((0 : Int) < 1 → (fun i => decide (i = 1)) (1 : Int) = true →
        (fun i => decide (i = 1)) ((1 : Int) - 1) = false →
        (status_at 1 (fun i => decide (i = 1))).keep_iterating = true)) :=
  ⟨by decide, keep_iterating_iff 1 (by decide) (fun i => decide (i = 1))⟩

/-- C2: `previous_is_iterating()` is false at rank 0 whatever the flags are, and at every rank
`r > 0` it is true iff rank `r-1` has not converged. -/
theorem previous_is_iterating_spec (flags : Int → Bool) :
    (status_at 0 flags).previous_is_iterating = false
    ∧ ∀ r : Int, 0 < r →
        ((status_at r flags).previous_is_iterating = true ↔ flags (r - 1) = false) := by
  refine ⟨by simp [IStatus.previous_is_iterating, status_at], ?_⟩
  intro r hpos
  have hne : r ≠ 0 := ne_of_gt hpos
  simp [IStatus.previous_is_iterating, status_at, hne]

/-- Witness for C2: at rank 2 with only rank 2 converged, the predecessor is still iterating. -/
theorem previous_is_iterating_spec_witness :
    (0 : Int) < 2 ∧
    ((status_at 2 (fun i => decide (i = 2))).previous_is_iterating = true ↔
      (fun i => decide (i = 2)) ((2 : Int) - 1) = false) :=
  ⟨by decide, (previous_is_iterating_spec (fun i => decide (i = 2))).2 2 (by decide)⟩

/-! ## Properties of `mat_apply` -/

section MatApply

variable {K V : Type} [Field K] [AddCommGroup V] [Module K V]

/-- The zeroing loop of `mat_apply` stores the additive identity at every pointer of `dst` and
leaves every other state alone. -/
theorem zero_phase (dst : List Nat) (h : Nat → V) :
    ∃ h1 : Nat → V,
      dst.foldlM (fun st elem => (vector_space_methods K V).zero elem st) h = .ok h1 ∧
      ∀ p, h1 p = if p ∈ dst then 0 else h p := by
  induction dst generalizing h with
  | nil => exact ⟨h, rfl, by simp⟩
  | cons d rest ih =>
    obtain ⟨h1, hrun, hval⟩ := ih (Function.update h d 0)
    refine ⟨h1, ?_, ?_⟩
    · simpa [List.foldlM_cons, vector_space_methods, bind, Except.bind] using hrun
    · intro p
      rw [hval p]
      by_cases hp : p ∈ rest
      · simp [hp]
      · by_cases hpd : p = d
        · subst hpd
          simp [hp]
        · simp [hp, hpd]

/-- The first `k` rounds of the inner loop of `mat_apply` for row `n`: they add the first `k`
terms of the row sum onto `dst[n]` and change no other state. -/
theorem row_loop [DecidableEq K] (dst src : List Nat) (a : K) (mat : Nat → Nat → K) (n d : Nat)
    (hd : dst[n]? = some d) (hds : d ∉ src) (k : Nat) (hk : k ≤ src.length) (h : Nat → V) :
    ∃ h1 : Nat → V,
      (List.range k).foldlM (mat_apply_body (vector_space_methods K V) dst a mat src n) h
        = .ok h1 ∧
      h1 d = h d + ∑ m in Finset.range k, (a * mat n m) • src_val h src m ∧
      ∀ q, q ≠ d → h1 q = h q := by
  induction k with
  | zero => exact ⟨h, rfl, by simp, fun _ _ => rfl⟩
  | succ k ih =>
    obtain ⟨h1, hrun, hval, hframe⟩ := ih (Nat.le_of_succ_le hk)
    have hklt : k < src.length := hk
    have hx : src[k]? = some src[k] := List.getElem?_eq_getElem hklt
    have hxd : src[k] ≠ d := fun e => hds (e ▸ List.getElem_mem hklt)
    by_cases hs : mat n k = 0
    · refine ⟨h1, ?_, ?_, hframe⟩
      · rw [List.range_succ, List.foldlM_append, hrun]
        simp [mat_apply_body, hs, bind, Except.bind, pure, Except.pure]
      · rw [hval, Finset.sum_range_succ, hs]
        simp
    · refine ⟨Function.update h1 d (h1 d + (a * mat n k) • h1 src[k]), ?_, ?_, ?_⟩
      · rw [List.range_succ, List.foldlM_append, hrun]
        simp [mat_apply_body, hs, hd, hx, vector_space_methods, bind, Except.bind]
        rfl
      · rw [Function.update_same, hval, Finset.sum_range_succ, hframe _ hxd]
        simp [src_val, hx, add_assoc]
      · intro q hq
        rw [Function.update_noteq hq, hframe q hq]

/-- Source values agree in two stores that agree on every pointer of `src`. -/
theorem src_val_congr (src : List Nat) (h h1 : Nat → V) (hsame : ∀ x ∈ src, h1 x = h x)
    (m : Nat) : src_val h1 src m = src_val h src m := by
  unfold src_val
  cases hx : src[m]? with
  | none => rfl
  | some x =>
    obtain ⟨hm, rfl⟩ := List.getElem?_eq_some.1 hx
    exact hsame _ (List.getElem_mem hm)

/-- At an index of `src`, `src_val` is the value stored for that source pointer. -/
theorem src_val_get (src : List Nat) (h : Nat → V) (m : Fin src.length) :
    src_val h src m = h (src.get m) := by
  simp [src_val]

/-- The first `j` rounds of the outer loop of `mat_apply`: rows `0 .. j-1` have received their
row sums, every other state is unchanged. -/
theorem rows_loop [DecidableEq K] (dst src : List Nat) (a : K) (mat : Nat → Nat → K)
    (hnd : dst.Nodup) (hdisj : ∀ p ∈ dst, p ∉ src) (j : Nat) (hj : j ≤ dst.length)
    (h : Nat → V) :
    ∃ h1 : Nat → V,
      (List.range j).foldlM
        (fun st n => (List.range src.length).foldlM
          (mat_apply_body (vector_space_methods K V) dst a mat src n) st) h = .ok h1 ∧
      (∀ n (hn : n < dst.length), n < j →
        h1 dst[n] = h dst[n] + ∑ m in Finset.range src.length, (a * mat n m) • src_val h src m) ∧
      (∀ q, (∀ n (hn : n < dst.length), n < j → dst[n] ≠ q) → h1 q = h q) := by
  induction j with
  | zero => exact ⟨h, rfl, fun _ _ hn => absurd hn (Nat.not_lt_zero _), fun _ _ => rfl⟩
  | succ j ih =>
    obtain ⟨h1, hrun, hval, hframe⟩ := ih (Nat.le_of_succ_le hj)
    have hjlt : j < dst.length := hj
    have hd : dst[j]? = some dst[j] := List.getElem?_eq_getElem hjlt
    have hds : dst[j] ∉ src := hdisj _ (List.getElem_mem hjlt)
    obtain ⟨h2, hrow, hrowval, hrowframe⟩ :=
      row_loop dst src a mat j dst[j] hd hds src.length le_rfl h1
    have hsrc : ∀ x ∈ src, h1 x = h x := by
      intro x hx
      apply hframe
      intro n hn _ e
      exact hdisj _ (List.getElem_mem hn) (e ▸ hx)
    have hold : h1 dst[j] = h dst[j] := by
      apply hframe
      intro n hn hnj e
      have := (hnd.getElem_inj_iff).1 e
      omega
    refine ⟨h2, ?_, ?_, ?_⟩
    · rw [List.range_succ, List.foldlM_append, hrun]
      simp only [List.foldlM_cons, List.foldlM_nil, bind, Except.bind, hrow]
      rfl
    · intro n hn hnj
      rcases Nat.lt_succ_iff_lt_or_eq.1 hnj with hlt | heq
      · have hne : dst[n] ≠ dst[j] := by
          intro e
          have := (hnd.getElem_inj_iff).1 e
          omega
        rw [hrowframe _ hne, hval n hn hlt]
      · subst heq
        rw [hrowval, hold]
        congr 1
        exact Finset.sum_congr rfl (fun m _ => by rw [src_val_congr src h h1 hsrc m])
    · intro q hq
      have hne : q ≠ dst[j] := fun e => hq j hjlt (Nat.lt_succ_self j) e.symm
      rw [hrowframe q hne]
      exact hframe q (fun n hn hnj => hq n hn (Nat.lt_succ_of_lt hnj))

/-- C3: with `zero()` and `saxpy()` implementing the vector-space contract, pairwise distinct
destination states and no state shared between `dst` and `src`, `mat_apply` returns normally and
leaves `dst[n] = (zero ? 0 : old dst[n]) + Σ_m (a * M[n,m]) • src[m]` for every `n`, with every
`src[m]` unchanged; with `zero = true`, `a = 1` and `M` the identity this is `dst[i] = src[i]`,
and with `zero = false` the sum is added onto the old content of `dst[n]`. -/
theorem mat_apply_vector_space [DecidableEq K] (dst src : List Nat) (a : K)
    (mat : Nat → Nat → K) (zero : Bool) (h : Nat → V)
    (hnd : dst.Nodup) (hdisj : ∀ p ∈ dst, p ∉ src) :
    ∃ h1 : Nat → V,
      mat_apply (vector_space_methods K V) dst a mat src zero h = .ok h1 ∧
      (∀ n : Fin dst.length, h1 (dst.get n) =
        (if zero = true then 0 else h (dst.get n)) +
          ∑ m : Fin src.length, (a * mat n m) • h (src.get m)) ∧
      (∀ x ∈ src, h1 x = h x) ∧
      (zero = true → a = 1 → (∀ n m, mat n m = if n = m then 1 else 0) →
        ∀ i (hd : i < dst.length) (hs : i < src.length), h1 dst[i] = h src[i]) ∧
      (zero = false → ∀ n : Fin dst.length, h1 (dst.get n) =
        h (dst.get n) + ∑ m : Fin src.length, (a * mat n m) • h (src.get m)) := by
  obtain ⟨h0, hzrun, hzval⟩ :
      ∃ h0 : Nat → V,
        (if zero = true then
            dst.foldlM (fun st elem => (vector_space_methods K V).zero elem st) h
          else pure h) = Except.ok h0 ∧
        ∀ p, h0 p = if zero = true ∧ p ∈ dst then 0 else h p := by
    cases zero with
    | false => exact ⟨h, rfl, by simp⟩
    | true =>
      obtain ⟨h0, hr, hv⟩ := @zero_phase K V _ _ _ dst h
      exact ⟨h0, by simpa using hr, by simpa using hv⟩
  obtain ⟨h1, hrun, hval, hframe⟩ := rows_loop dst src a mat hnd hdisj dst.length le_rfl h0
  have hsrc0 : ∀ x ∈ src, h0 x = h x := by
    intro x hx
    have hxd : x ∉ dst := fun hm => hdisj x hm hx
    rw [hzval x]
    simp [hxd]
  have hsrc : ∀ x ∈ src, h1 x = h x := by
    intro x hx
    rw [hframe x (fun n hn _ e => hdisj _ (List.getElem_mem hn) (e ▸ hx))]
    exact hsrc0 x hx
  have hmain : ∀ n : Fin dst.length, h1 (dst.get n) =
      (if zero = true then 0 else h (dst.get n)) +
        ∑ m : Fin src.length, (a * mat n m) • h (src.get m) := by
    intro n
    have h1n := hval n n.isLt n.isLt
    rw [List.get_eq_getElem, h1n, hzval, Finset.sum_range]
    congr 1
    · have hmem : dst[(n : Nat)] ∈ dst := List.getElem_mem n.isLt
      by_cases hz : zero = true <;> simp [hz, hmem]
    · refine Finset.sum_congr rfl (fun m _ => ?_)
      rw [src_val_congr src h h0 hsrc0, src_val_get]
  refine ⟨h1, ?_, hmain, hsrc, ?_, ?_⟩
  · unfold mat_apply
    cases zero with
    | false =>
      have h0eq : h = h0 := by
        have := hzrun
        simp only [Bool.false_eq_true, if_false, pure, Except.pure] at this
        exact Except.ok.inj this
      simp only [Bool.false_eq_true, if_false, bind, Except.bind, pure, Except.pure]
      rw [h0eq]
      exact hrun
    | true =>
      simp only [if_true] at hzrun
      simp only [if_true, bind, Except.bind, hzrun]
      exact hrun
  · intro hz ha hid i hd hs
    have := hmain ⟨i, hd⟩
    rw [List.get_eq_getElem] at this
    rw [this, hz, ha]
    simp only [if_true, zero_add, one_mul, hid]
    rw [Finset.sum_eq_single (⟨i, hs⟩ : Fin src.length)]
    · simp
    · intro m _ hm
      have : i ≠ (m : Nat) := fun e => hm (Fin.ext e.symm)
      simp [this]
    · intro hnot
      exact absurd (Finset.mem_univ _) hnot
  · intro hz n
    have := hmain n
    rw [hz] at this
    simpa using this

/-- Witness for C3: the identity matrix with `a = 1`, `zero = true`, destinations at addresses
0 and 1, sources at addresses 2 and 3 holding the values 2 and 3. -/
theorem mat_apply_vector_space_witness :
    ([0, 1] : List Nat).Nodup ∧ (∀ p ∈ ([0, 1] : List Nat), p ∉ ([2, 3] : List Nat)) ∧
    ∃ h1 : Nat → ℚ,
      mat_apply (vector_space_methods ℚ ℚ) [0, 1] 1 (fun n m => if n = m then 1 else 0) [2, 3]
        true (fun p => (p : ℚ)) = .ok h1 ∧
      h1 0 = 2 ∧ h1 1 = 3 ∧ h1 2 = 2 ∧ h1 3 = 3 := by
  refine ⟨by decide, by decide, ?_⟩
  obtain ⟨h1, hrun, _, hsrc, hid, _⟩ :=
    mat_apply_vector_space [0, 1] [2, 3] (1 : ℚ) (fun n m => if n = m then 1 else 0) true
      (fun p => (p : ℚ)) (by decide) (by decide)
  refine ⟨h1, hrun, ?_, ?_, ?_, ?_⟩
  · simpa using hid rfl rfl (fun _ _ => rfl) 0 (by decide) (by decide)
  · simpa using hid rfl rfl (fun _ _ => rfl) 1 (by decide) (by decide)
  · simpa using hsrc 2 (by decide)
  · simpa using hsrc 3 (by decide)

end MatApply

/-! ## Properties of the controller -/

section ControllerProperties

variable {K S T : Type}

/-- Subtracting one from a positive `size_t` does not wrap. -/
theorem size_t_sub_one (n : Nat) (h1 : 1 ≤ n) (h2 : n < SIZE_MOD) : size_t_sub n 1 = n - 1 := by
  unfold size_t_sub SIZE_MOD at *
  omega

/-- Values in `[0, 2^31)` are representable as `int`. -/
theorem wrap_int_small (x : Int) (h0 : 0 ≤ x) (h1 : x < 2 ^ 31) : wrap_int x = x := by
  unfold wrap_int
  omega

/-- A non-negative `int` converts to the `size_t` of the same value. -/
theorem int_to_size_t_natCast (n : Nat) (h : n < SIZE_MOD) : int_to_size_t (n : Int) = n := by
  unfold int_to_size_t
  unfold SIZE_MOD at h
  omega

/-- For `1 ≤ nlevels() < 2^31` the cursor `finest()` sits at index `nlevels() - 1`. -/
theorem finest_level (c : Controller K S T) (hpos : 1 ≤ c.nlevels) (hlt : c.nlevels < 2 ^ 31) :
    c.finest.level = ((c.nlevels - 1 : Nat) : Int) := by
  unfold Controller.finest size_t_to_int
  simp only
  rw [size_t_sub_one _ hpos (by unfold SIZE_MOD; omega), wrap_int_small _ (by omega) (by omega)]

/-- The level loop started at cursor `i`, `d` levels below the end of the hierarchy, runs its
body at the cursors `i, ..., i + d - 1` and then leaves. -/
theorem level_loop_from (c : Controller K S T) (hpos : 1 ≤ c.nlevels)
    (hlt : c.nlevels < 2 ^ 31) (d : Nat) :
    ∀ (i fuel : Nat), i + d = c.nlevels → d + 1 ≤ fuel →
      c.level_loop fuel (cursor_at i) =
        some ((List.range' i d).map cursor_at) := by
  induction d with
  | zero =>
    intro i fuel hi hfuel
    obtain ⟨f, rfl⟩ : ∃ f, fuel = f + 1 := ⟨fuel - 1, by omega⟩
    have hfin := finest_level c hpos hlt
    have : ¬ ((i : Int) ≤ c.finest.level) := by rw [hfin]; omega
    simp [Controller.level_loop, LevelIter.le, cursor_at, this]
  | succ d ih =>
    intro i fuel hi hfuel
    obtain ⟨f, rfl⟩ : ∃ f, fuel = f + 1 := ⟨fuel - 1, by omega⟩
    have hfin := finest_level c hpos hlt
    have hle : (i : Int) ≤ c.finest.level := by rw [hfin]; omega
    have hincr : LevelIter.incr (cursor_at i) = (cursor_at (i + 1)) := by
      unfold LevelIter.incr cursor_at
      simp only
      rw [wrap_int_small _ (by omega) (by omega)]
      rfl
    have hle2 : (cursor_at i).level ≤ c.finest.level := hle
    simp only [Controller.level_loop, LevelIter.le, hle2, decide_True, if_true, hincr]
    rw [ih (i + 1) f (by omega) (by omega)]
    simp [List.range'_succ]


/-- C4: `add_level(s, t, true)` puts `s`/`t` in front of the level/transfer sequences (old index
`i` becomes `i+1`, `s` is what `get_coarsest` returns), `add_level(s, t, false)` puts them at the
back (old indices unchanged, `s` is what `get_finest` returns); either way `nlevels()` grows by
one, equal lengths stay equal and the step/iteration/time members are untouched. -/
theorem add_level_spec [Field K] (c : Controller K S T) (s : Option S) (t : Option T)
    (coarse : Bool) :
    ((c.add_level s t true).levels = s :: c.levels ∧
      (c.add_level s t true).transfer = t :: c.transfer ∧
      (c.add_level s t true).levels[0]? = some s ∧
      (∀ i, (c.add_level s t true).levels[i + 1]? = c.levels[i]?) ∧
      (∀ (beyond : Nat → Except Failure (Option S)) (isR : S → Bool) (x : S),
        s = some x → isR x = true →
        (c.add_level s t true).get_coarsest beyond isR = .ok (some x))) ∧
    ((c.add_level s t false).levels = c.levels ++ [s] ∧
      (c.add_level s t false).transfer = c.transfer ++ [t] ∧
      (c.add_level s t false).levels[c.nlevels]? = some s ∧
      (∀ i, i < c.nlevels → (c.add_level s t false).levels[i]? = c.levels[i]?) ∧
      (∀ (beyond : Nat → Except Failure (Option S)) (isR : S → Bool) (x : S),
        c.nlevels < SIZE_MOD → s = some x → isR x = true →
        (c.add_level s t false).get_finest beyond isR = .ok (some x))) ∧
    (c.add_level s t coarse).nlevels = c.nlevels + 1 ∧
    (c.levels.length = c.transfer.length →
      (c.add_level s t coarse).levels.length = (c.add_level s t coarse).transfer.length) ∧
    (c.add_level s t coarse).step = c.step ∧
    (c.add_level s t coarse).iteration = c.iteration ∧
    (c.add_level s t coarse).max_iterations = c.max_iterations ∧
    (c.add_level s t coarse).t = c.t ∧
    (c.add_level s t coarse).dt = c.dt ∧
    (c.add_level s t coarse).tend = c.tend := by
  refine ⟨⟨rfl, rfl, by simp [Controller.add_level], fun _ => by simp [Controller.add_level], ?_⟩,
    ⟨rfl, rfl, ?_, ?_, ?_⟩, ?_, ?_, ?_⟩
  · intro beyond isR x hs hx
    subst hs
    simp [Controller.get_coarsest, Controller.get_level, Controller.add_level, deque_at,
      dynamic_pointer_cast, hx, bind, Except.bind, pure, Except.pure]
  · simp [Controller.add_level, Controller.nlevels]
  · intro i hi
    simp only [Controller.add_level, Controller.nlevels] at *
    simp [List.getElem?_append_left hi]
  · intro beyond isR x hlt hs hx
    subst hs
    have hsub : size_t_sub (c.levels.length + 1) 1 = c.levels.length := by
      unfold Controller.nlevels at hlt
      unfold size_t_sub
      unfold SIZE_MOD at *
      omega
    simp [Controller.get_finest, Controller.get_level, Controller.add_level, deque_at,
      Controller.nlevels, hsub, dynamic_pointer_cast, hx, bind, Except.bind, pure, Except.pure]
  · cases coarse <;> simp [Controller.add_level, Controller.nlevels]
  · intro hlen
    cases coarse <;> simp [Controller.add_level, hlen]
  · cases coarse <;> simp [Controller.add_level]

/-- Witness for C4 on the empty controller and on a two-level hierarchy. -/
theorem add_level_spec_witness :
    ((Controller.new : Controller ℚ Nat Nat).add_level (some 10) none true).get_coarsest
        stray_pointer (fun _ => true) = .ok (some 10) ∧
    (two_levels.add_level (some 12) (some 22) false).get_finest stray_pointer (fun _ => true)
        = .ok (some 12) ∧
    (two_levels.add_level (some 12) (some 22) false).levels.length
        = (two_levels.add_level (some 12) (some 22) false).transfer.length :=
  ⟨(add_level_spec (Controller.new : Controller ℚ Nat Nat) (some 10) none true).1.2.2.2.2
      stray_pointer (fun _ => true) 10 rfl rfl,
    (add_level_spec two_levels (some 12) (some 22) false).2.1.2.2.2.2
      stray_pointer (fun _ => true) 12 (by decide) rfl rfl,
    (add_level_spec two_levels (some 12) (some 22) false).2.2.2.1 (by decide)⟩

/-- The body shared by `get_level` and `get_transfer`, on an arbitrary deque of shared
pointers: the outcomes within the bounds, the dependence on the memory past the end outside
them, and the absence of a null result. -/
theorem get_from_deque {α : Type} (d : List (Option α))
    (beyond : Nat → Except Failure (Option α)) (isR : α → Bool) (i : Nat) :
    (∀ x, d[i]? = some (some x) → isR x = true →
      (do let p ← deque_at d beyond i
          let r := dynamic_pointer_cast isR p
          if r.isSome then pure r else Except.error Failure.assertion) = .ok (some x)) ∧
    (d.length ≤ i → ∀ y, beyond i = .ok (some y) → isR y = true →
      (do let p ← deque_at d beyond i
          let r := dynamic_pointer_cast isR p
          if r.isSome then pure r else Except.error Failure.assertion) = .ok (some y)) ∧
    (d[i]? = some none →
      (do let p ← deque_at d beyond i
          let r := dynamic_pointer_cast isR p
          if r.isSome then pure r else Except.error Failure.assertion)
        = .error Failure.assertion) ∧
    (∀ x, d[i]? = some (some x) → isR x = false →
      (do let p ← deque_at d beyond i
          let r := dynamic_pointer_cast isR p
          if r.isSome then pure r else Except.error Failure.assertion)
        = .error Failure.assertion) ∧
    (do let p ← deque_at d beyond i
        let r := dynamic_pointer_cast isR p
        if r.isSome then pure r else Except.error Failure.assertion) ≠ .ok none := by
  refine ⟨?_, ?_, ?_, ?_, ?_⟩
  · intro x hx hr
    simp [deque_at, hx, dynamic_pointer_cast, hr, bind, Except.bind, pure, Except.pure]
  · intro hi y hy hr
    simp [deque_at, List.getElem?_eq_none hi, hy, dynamic_pointer_cast, hr, bind, Except.bind,
      pure, Except.pure]
  · intro hx
    simp [deque_at, hx, dynamic_pointer_cast, bind, Except.bind]
  · intro x hx hr
    simp [deque_at, hx, dynamic_pointer_cast, hr, bind, Except.bind]
  · have hcheck : ∀ p : Option α,
        (if (dynamic_pointer_cast isR p).isSome then
            (pure (dynamic_pointer_cast isR p) : Except Failure (Option α))
          else Except.error Failure.assertion) ≠ .ok none := by
      intro p
      cases p with
      | none => simp [dynamic_pointer_cast]
      | some x => cases hr : isR x <;> simp [dynamic_pointer_cast, hr, pure, Except.pure]
    cases hx : d[i]? with
    | none =>
      cases hb : beyond i with
      | error e => simp [deque_at, hx, hb, bind, Except.bind]
      | ok p =>
        have := hcheck p
        simpa [deque_at, hx, hb, bind, Except.bind] using this
    | some p =>
      have := hcheck p
      simpa [deque_at, hx, bind, Except.bind] using this

/-- C6, for hierarchies of fewer than `2^31` levels: `coarsest().level = 0`,
`finest().level = k`, and the loop `for (c = coarsest(); c <= finest(); ++c)` terminates after
running its body at exactly the cursors `0, 1, ..., k`, in strictly increasing order;
`c.current()` at cursor `i` is `get_level(i)`, the sweeper stored at index `i`. -/
theorem level_loop_visits [Field K] (c : Controller K S T)
    (beyond : Nat → Except Failure (Option S)) (isR : S → Bool)
    (hpos : 1 ≤ c.nlevels) (hlt : c.nlevels < 2 ^ 31) :
    c.coarsest.level = 0 ∧
    c.finest.level = ((c.nlevels - 1 : Nat) : Int) ∧
    (∀ fuel, c.nlevels + 1 ≤ fuel →
      c.level_loop fuel c.coarsest =
        some ((List.range c.nlevels).map cursor_at)) ∧
    ((List.range c.nlevels).map cursor_at).length
      = c.nlevels ∧
    List.Pairwise (fun a b : LevelIter => a.level < b.level)
      ((List.range c.nlevels).map cursor_at) ∧
    (∀ j : Nat, j < c.nlevels →
      LevelIter.current (cursor_at j) c beyond isR = c.get_level beyond isR j) ∧
    (∀ (j : Nat) (x : S), c.levels[j]? = some (some x) → isR x = true →
      LevelIter.current (cursor_at j) c beyond isR = .ok (some x)) := by
  have hcur : ∀ j : Nat, j < c.nlevels →
      LevelIter.current (cursor_at j) c beyond isR = c.get_level beyond isR j := by
    intro j hj
    unfold LevelIter.current cursor_at
    rw [int_to_size_t_natCast j (by unfold SIZE_MOD; omega)]
  refine ⟨rfl, finest_level c hpos hlt, ?_, by simp, ?_, hcur, ?_⟩
  · intro fuel hfuel
    have := level_loop_from c hpos hlt c.nlevels 0 fuel (by omega) hfuel
    rw [List.range_eq_range']
    exact this
  · rw [List.pairwise_map]
    refine List.Pairwise.imp ?_ (List.pairwise_lt_range c.nlevels)
    intro a b hab
    exact Int.ofNat_lt.2 hab
  · intro j x hx hr
    have hj : j < c.nlevels := by
      obtain ⟨hj, _⟩ := List.getElem?_eq_some.1 hx
      exact hj
    rw [hcur j hj]
    exact (get_from_deque c.levels beyond isR j).1 x hx hr

/-- Witness for C6 on the two-level hierarchy `two_levels`. -/
theorem level_loop_visits_witness :
    1 ≤ two_levels.nlevels ∧ two_levels.nlevels < 2 ^ 31 ∧
    two_levels.finest.level = 1 ∧
    two_levels.level_loop 3 two_levels.coarsest = some [{ level := 0 }, { level := 1 }] ∧
    LevelIter.current (cursor_at 1) two_levels stray_pointer (fun _ => true)
      = .ok (some 11) :=
  ⟨by decide, by decide,
    (level_loop_visits two_levels stray_pointer (fun _ => true) (by decide) (by decide)).2.1,
    (level_loop_visits two_levels stray_pointer (fun _ => true) (by decide)
      (by decide)).2.2.1 3 (by decide),
    (level_loop_visits two_levels stray_pointer (fun _ => true) (by decide)
      (by decide)).2.2.2.2.2.2 1 11 rfl rfl⟩

/-- Counterexample to C6 as stated for every hierarchy: with `2^31 + 1` levels (`k = 2^31`)
`finest().level` is `-2^31`, not `k`, and the loop leaves at its first test, visiting no
cursor at all. -/
theorem level_loop_visits_counterexample :
    1 ≤ huge_hierarchy.nlevels ∧
    huge_hierarchy.finest.level = -2 ^ 31 ∧
    huge_hierarchy.finest.level ≠ ((huge_hierarchy.nlevels - 1 : Nat) : Int) ∧
    (∀ fuel, huge_hierarchy.level_loop (fuel + 1) huge_hierarchy.coarsest = some []) ∧
    (∀ fuel, huge_hierarchy.level_loop fuel huge_hierarchy.coarsest ≠
      some ((List.range huge_hierarchy.nlevels).map
        cursor_at)) := by
  have hn : huge_hierarchy.nlevels = 2 ^ 31 + 1 := by
    unfold huge_hierarchy Controller.nlevels
    exact List.length_replicate _ _
  have hfin : huge_hierarchy.finest.level = -2 ^ 31 := by
    unfold Controller.finest
    rw [hn]
    decide
  have hloop : ∀ fuel, huge_hierarchy.level_loop (fuel + 1) huge_hierarchy.coarsest = some [] := by
    intro fuel
    have : ¬ ((0 : Int) ≤ huge_hierarchy.finest.level) := by rw [hfin]; decide
    simp [Controller.level_loop, LevelIter.le, Controller.coarsest, this]
  refine ⟨by rw [hn]; decide, hfin, ?_, hloop, ?_⟩
  · rw [hfin, hn]
    decide
  · intro fuel
    cases fuel with
    | zero => simp [Controller.level_loop]
    | succ f =>
      rw [hloop f, hn]
      intro h
      have hl := congrArg List.length (Option.some.inj h)
      rw [List.length_map, List.length_range] at hl
      exact absurd hl (by decide)

/-- A forward `set_step(n)` (`step ≤ n`) adds `(n - step) * dt` to the time. -/
theorem set_step_forward [Field K] (c : Controller K S T) (n : Nat) (hle : c.step ≤ n)
    (hn : n < SIZE_MOD) :
    (c.set_step n).t = c.t + ((n : K) - (c.step : K)) * c.dt ∧ (c.set_step n).step = n ∧
      (c.set_step n).dt = c.dt := by
  have hsub : size_t_sub n c.step = n - c.step := by
    unfold size_t_sub
    unfold SIZE_MOD at *
    rw [Nat.mod_eq_of_lt (by omega : c.step < 2 ^ 64)]
    omega
  refine ⟨?_, rfl, rfl⟩
  simp only [Controller.set_step, hsub, Nat.cast_sub hle]

/-- Without overflow, `advance_time(k)` adds `k` to the step index and `k * dt` to the time. -/
theorem advance_time_forward [Field K] (c : Controller K S T) (k : Nat)
    (h : c.step + k < SIZE_MOD) :
    (c.advance_time k).t = c.t + (k : K) * c.dt ∧ (c.advance_time k).step = c.step + k ∧
      (c.advance_time k).dt = c.dt := by
  refine ⟨rfl, ?_, rfl⟩
  simp only [Controller.advance_time, size_t_add]
  exact Nat.mod_eq_of_lt h

/-- Forward call sequences preserve `t = t0 + step * dt` and never change `dt`. -/
theorem run_all_invariant [Field K] (t0 : K) (calls : List TimeCall) :
    ∀ c : Controller K S T, c.t = t0 + (c.step : K) * c.dt → TimeCall.all_forward c calls →
      (TimeCall.run_all c calls).t = t0 + ((TimeCall.run_all c calls).step : K) * c.dt ∧
        (TimeCall.run_all c calls).dt = c.dt := by
  induction calls with
  | nil => intro c hc _; exact ⟨hc, rfl⟩
  | cons call rest ih =>
    intro c hc hfw
    obtain ⟨hcall, hrest⟩ := hfw
    have hstep : (TimeCall.run c call).t =
        t0 + ((TimeCall.run c call).step : K) * (TimeCall.run c call).dt ∧
        (TimeCall.run c call).dt = c.dt := by
      cases call with
      | advance_time k =>
        obtain ⟨ht, hs, hd⟩ := advance_time_forward c k hcall
        refine ⟨?_, hd⟩
        simp only [TimeCall.run]
        rw [ht, hs, hd, hc, Nat.cast_add]
        ring
      | set_step n =>
        obtain ⟨ht, hs, hd⟩ := set_step_forward c n hcall.1 hcall.2
        refine ⟨?_, hd⟩
        simp only [TimeCall.run]
        rw [ht, hs, hd, hc]
        ring
      | advance_iteration => exact ⟨hc, rfl⟩
      | set_iteration i => exact ⟨hc, rfl⟩
    obtain ⟨h1, h2⟩ := ih (TimeCall.run c call) hstep.1 hrest
    have hrun : TimeCall.run_all c (call :: rest) = TimeCall.run_all (TimeCall.run c call) rest :=
      rfl
    rw [hrun]
    exact ⟨by rw [h1, hstep.2], h2.trans hstep.2⟩

/-- C7, evaluated at a backward jump: from step 1, time 1, step size 1, `set_step(0)` sets the
step index to 0 but moves the time to `1 + (2^64 - 1) * 1 = 2^64` (the unsigned difference
`0 - 1` wraps), not to `1 + (0 - 1) * 1 = 0`. -/
theorem set_step_backward_evaluation :
    after_one_step.get_step = 1 ∧ after_one_step.get_time = 1 ∧
    after_one_step.get_time_step = 1 ∧
    (after_one_step.set_step 0).get_step = 0 ∧
    (after_one_step.set_step 0).get_time = 1 + (2 ^ 64 - 1) * 1 ∧
    (after_one_step.set_step 0).get_time ≠ 1 + (0 - 1) * 1 := by
  have hsub : size_t_sub 0 (size_t_add 0 1) = 2 ^ 64 - 1 := by decide
  have ht : (after_one_step.set_step 0).get_time = 1 + (2 ^ 64 - 1) * 1 := by
    simp only [after_one_step, Controller.set_step, Controller.get_time, Controller.advance_time,
      Controller.set_duration, Controller.new, hsub]
    norm_num
  refine ⟨by decide, ?_, rfl, rfl, ht, ?_⟩
  · simp [after_one_step, Controller.get_time, Controller.advance_time, Controller.set_duration,
      Controller.new]
  · rw [ht]
    norm_num

/-- C8: after `set_duration(t0, tend, dt, niters)`, every sequence of `advance_time(k)` and
forward `set_step(n)` calls without step-index overflow, interleaved with
`advance_iteration`/`set_iteration`, keeps `get_time() = t0 + get_step() * dt`; with `t0 = 0`,
`set_step(n1)` then `set_step(n2)` for `n1 < n2` gives `n1*dt + (n2-n1)*dt = n2*dt`, which is
`get_step() * get_time_step()`, the `get_time()` of `controller.hpp`. -/
theorem time_is_step_times_dt [Field K] (c0 : Controller K S T) (t0 tend dt : K) (niters : Nat)
    (calls : List TimeCall)
    (hfw : TimeCall.all_forward (c0.set_duration t0 tend dt niters) calls) :
    (TimeCall.run_all (c0.set_duration t0 tend dt niters) calls).get_time =
      t0 + ((TimeCall.run_all (c0.set_duration t0 tend dt niters) calls).get_step : K) * dt ∧
    (TimeCall.run_all (c0.set_duration t0 tend dt niters) calls).get_time_step = dt ∧
    (∀ n1 n2 : Nat, n1 < n2 → n2 < SIZE_MOD →
      (((c0.set_duration 0 tend dt niters).set_step n1).set_step n2).get_time
          = (n1 : K) * dt + ((n2 : K) - (n1 : K)) * dt ∧
      (((c0.set_duration 0 tend dt niters).set_step n1).set_step n2).get_time = (n2 : K) * dt ∧
      (((c0.set_duration 0 tend dt niters).set_step n1).set_step n2).get_step = n2 ∧
      ∀ hc : HeaderController K, hc.dt = dt → hc.steps.i = n2 →
        hc.get_time = (((c0.set_duration 0 tend dt niters).set_step n1).set_step n2).get_time) := by
  have hinit : (c0.set_duration t0 tend dt niters).t =
      t0 + ((c0.set_duration t0 tend dt niters).step : K) * (c0.set_duration t0 tend dt niters).dt := by
    simp [Controller.set_duration]
  obtain ⟨h1, h2⟩ := run_all_invariant t0 calls _ hinit hfw
  refine ⟨h1, h2, ?_⟩
  intro n1 n2 hlt hn2
  have hfw2 : TimeCall.all_forward (c0.set_duration 0 tend dt niters)
      [TimeCall.set_step n1, TimeCall.set_step n2] :=
    ⟨⟨Nat.zero_le _, by omega⟩, ⟨Nat.le_of_lt hlt, hn2⟩, trivial⟩
  have hinit0 : (c0.set_duration 0 tend dt niters).t =
      0 + ((c0.set_duration 0 tend dt niters).step : K) * (c0.set_duration 0 tend dt niters).dt := by
    simp [Controller.set_duration]
  obtain ⟨h3, _⟩ := run_all_invariant 0 _ _ hinit0 hfw2
  have ht : (((c0.set_duration 0 tend dt niters).set_step n1).set_step n2).get_time
      = (n2 : K) * dt := by
    have : (((c0.set_duration 0 tend dt niters).set_step n1).set_step n2).t
        = 0 + (n2 : K) * dt := h3
    simpa [Controller.get_time] using this
  refine ⟨?_, ht, rfl, ?_⟩
  · rw [ht]; ring
  · intro hc hdt hi
    rw [ht]
    simp [HeaderController.get_time, HeaderController.get_step, HeaderController.get_time_step,
      hdt, hi]

/-- Witness for C8: a mixed sequence of forward calls after `set_duration(1/2, 10, 1/4, 5)`. -/
theorem time_is_step_times_dt_witness :
    (TimeCall.run_all ((Controller.new : Controller ℚ Nat Nat).set_duration (1 / 2) 10 (1 / 4) 5)
        [TimeCall.set_step 2, TimeCall.advance_iteration, TimeCall.advance_time 3,
          TimeCall.set_iteration 0, TimeCall.set_step 7]).get_time =
      1 / 2 + ((TimeCall.run_all
        ((Controller.new : Controller ℚ Nat Nat).set_duration (1 / 2) 10 (1 / 4) 5)
        [TimeCall.set_step 2, TimeCall.advance_iteration, TimeCall.advance_time 3,
          TimeCall.set_iteration 0, TimeCall.set_step 7]).get_step : ℚ) * (1 / 4) :=
  (time_is_step_times_dt (Controller.new : Controller ℚ Nat Nat) (1 / 2) 10 (1 / 4) 5
    [TimeCall.set_step 2, TimeCall.advance_iteration, TimeCall.advance_time 3,
      TimeCall.set_iteration 0, TimeCall.set_step 7]
    (by
      simp only [TimeCall.all_forward, TimeCall.forward, TimeCall.run, Controller.set_duration,
        Controller.set_step, Controller.advance_time, Controller.advance_iteration,
        Controller.set_iteration, Controller.new, size_t_add, SIZE_MOD]
      decide)).1

/-- C9: when `s + k` does not overflow, `advance_time(k)` yields `get_step() = s + k` and
`get_time() = t + k*dt` and leaves the iteration index, `dt`, the end time, `max_iterations` and
the level/transfer hierarchy unchanged. -/
theorem advance_time_spec [Field K] (c : Controller K S T) (k : Nat)
    (h : c.get_step + k < SIZE_MOD) :
    (c.advance_time k).get_step = c.get_step + k ∧
    (c.advance_time k).get_time = c.get_time + (k : K) * c.get_time_step ∧
    (c.advance_time k).get_iteration = c.get_iteration ∧
    (c.advance_time k).get_time_step = c.get_time_step ∧
    (c.advance_time k).get_end_time = c.get_end_time ∧
    (c.advance_time k).get_max_iterations = c.get_max_iterations ∧
    (c.advance_time k).levels = c.levels ∧
    (c.advance_time k).transfer = c.transfer :=
  ⟨(advance_time_forward c k h).2.1, rfl, rfl, rfl, rfl, rfl, rfl, rfl⟩

/-- Witness for C9: `advance_time(3)` from step 1. -/
theorem advance_time_spec_witness :
    after_one_step.get_step + 3 < SIZE_MOD ∧
    (after_one_step.advance_time 3).get_step = after_one_step.get_step + 3 ∧
    (after_one_step.advance_time 3).get_time
      = after_one_step.get_time + (3 : Nat) * after_one_step.get_time_step :=
  ⟨by decide, (advance_time_spec after_one_step 3 (by decide)).1,
    (advance_time_spec after_one_step 3 (by decide)).2.1⟩

/-- C10: after `set_duration(t0, tend, dt, niters)`, `get_time() = t0`, `get_end_time() = tend`,
`get_time_step() = dt`, `get_max_iterations() = niters`, `get_step() = 0` and
`get_iteration() = 0`, whatever the state was before, and the hierarchy is unchanged. -/
theorem set_duration_spec [Field K] (c : Controller K S T) (t0 tend dt : K) (niters : Nat) :
    (c.set_duration t0 tend dt niters).get_time = t0 ∧
    (c.set_duration t0 tend dt niters).get_end_time = tend ∧
    (c.set_duration t0 tend dt niters).get_time_step = dt ∧
    (c.set_duration t0 tend dt niters).get_max_iterations = niters ∧
    (c.set_duration t0 tend dt niters).get_step = 0 ∧
    (c.set_duration t0 tend dt niters).get_iteration = 0 ∧
    (c.set_duration t0 tend dt niters).levels = c.levels ∧
    (c.set_duration t0 tend dt niters).transfer = c.transfer :=
  ⟨rfl, rfl, rfl, rfl, rfl, rfl, rfl, rfl⟩

end ControllerProperties

/-! ## Default method bodies -/

/-- C11: for every argument value and every program state, the default `ISweeper::save` and
`spread`, `ITransfer::interpolate_initial` and `restrict_initial`, `Encapsulation::zero`,
`copy`, `saxpy` and `norm0`, and the default `send`/`recv`/`broadcast` of `Encapsulation` and
`ISweeper` fail with `NotImplementedYet`; none of them returns normally. -/
theorem defaults_not_implemented {K S Ptr σ : Type} (st : σ) (b : Bool)
    (comm : Option ICommunicator) (tag : Int) (dst src : Option S) (a : K) (x : Option Ptr) :
    ((ISweeper.save b st = .error (.NotImplementedYet "mlsdc/pfasst") ∧
      ISweeper.spread st = .error (.NotImplementedYet "pfasst") ∧
      ISweeper.send comm tag b st = .error (.NotImplementedYet "pfasst") ∧
      ISweeper.recv comm tag b st = .error (.NotImplementedYet "pfasst") ∧
      ISweeper.broadcast comm st = .error (.NotImplementedYet "pfasst")) ∧
    (ITransfer.interpolate_initial dst src st = .error (.NotImplementedYet "pfasst") ∧
      ITransfer.restrict_initial dst src st = .error (.NotImplementedYet "pfasst")) ∧
    (Encapsulation.zero st = .error (.NotImplementedYet "encap") ∧
      Encapsulation.copy x st = .error (.NotImplementedYet "encap") ∧
      Encapsulation.saxpy a x st = .error (.NotImplementedYet "encap") ∧
      (Encapsulation.norm0 st : Except Failure K) = .error (.NotImplementedYet "norm0") ∧
      Encapsulation.send comm tag b st = .error (.NotImplementedYet "pfasst") ∧
      Encapsulation.recv comm tag b st = .error (.NotImplementedYet "pfasst") ∧
      Encapsulation.broadcast comm st = .error (.NotImplementedYet "pfasst"))) ∧
    (∀ st1 : σ,
      ISweeper.save b st ≠ .ok st1 ∧ ISweeper.spread st ≠ .ok st1 ∧
      ISweeper.send comm tag b st ≠ .ok st1 ∧ ISweeper.recv comm tag b st ≠ .ok st1 ∧
      ISweeper.broadcast comm st ≠ .ok st1 ∧
      ITransfer.interpolate_initial dst src st ≠ .ok st1 ∧
      ITransfer.restrict_initial dst src st ≠ .ok st1 ∧
      Encapsulation.zero st ≠ .ok st1 ∧ Encapsulation.copy x st ≠ .ok st1 ∧
      Encapsulation.saxpy a x st ≠ .ok st1 ∧
      Encapsulation.send comm tag b st ≠ .ok st1 ∧ Encapsulation.recv comm tag b st ≠ .ok st1 ∧
      Encapsulation.broadcast comm st ≠ .ok st1) ∧
    (∀ v : K, (Encapsulation.norm0 st : Except Failure K) ≠ .ok v) := by
  refine ⟨⟨⟨rfl, rfl, rfl, rfl, rfl⟩, ⟨rfl, rfl⟩, ⟨rfl, rfl, rfl, rfl, rfl, rfl, rfl⟩⟩, ?_, ?_⟩
  · intro st1
    refine ⟨?_, ?_, ?_, ?_, ?_, ?_, ?_, ?_, ?_, ?_, ?_, ?_, ?_⟩ <;> exact fun h => nomatch h
  · intro v h
    exact nomatch h

/-! ## `RangeIter` -/

/-- After `reset(s)` and `k` calls of `next()` without overflow the index is `s + k`. -/
theorem range_iter_iterate (r : RangeIter) (k : Nat) (h : r.i + k < SIZE_MOD) :
    (RangeIter.next^[k] r).i = r.i + k ∧ (RangeIter.next^[k] r).n = r.n := by
  induction k generalizing r with
  | zero => exact ⟨rfl, rfl⟩
  | succ k ih =>
    have hnext : r.next.i = r.i + 1 := by
      simp only [RangeIter.next, size_t_add]
      exact Nat.mod_eq_of_lt (by omega)
    have hn : r.next.n = r.n := rfl
    obtain ⟨h1, h2⟩ := ih r.next (by omega)
    rw [Function.iterate_succ_apply]
    exact ⟨by omega, h2.trans hn⟩

/-- The loop `while (valid()) next();` started `d` below the size runs its body `d` times. -/
theorem while_valid_next_from (n : Nat) (hn : n < SIZE_MOD) (d : Nat) :
    ∀ (i fuel : Nat), i + d = n → d + 1 ≤ fuel →
      RangeIter.while_valid_next fuel { i := i, n := n } = some (d, { i := n, n := n }) := by
  induction d with
  | zero =>
    intro i fuel hi hfuel
    obtain ⟨f, rfl⟩ : ∃ f, fuel = f + 1 := ⟨fuel - 1, by omega⟩
    have : i = n := by omega
    subst this
    simp [RangeIter.while_valid_next, RangeIter.valid]
  | succ d ih =>
    intro i fuel hi hfuel
    obtain ⟨f, rfl⟩ : ∃ f, fuel = f + 1 := ⟨fuel - 1, by omega⟩
    have hlt : i < n := by omega
    have hnext : RangeIter.next { i := i, n := n } = { i := i + 1, n := n } := by
      simp only [RangeIter.next, size_t_add]
      rw [Nat.mod_eq_of_lt (by omega)]
    simp only [RangeIter.while_valid_next, RangeIter.valid, hlt, decide_True, if_true, hnext]
    rw [ih (i + 1) f (by omega) (by omega)]
    rfl

/-- C12: after `set_size(n)`, `reset(s)` and `k` calls of `next()` with `s + k` not
overflowing, `valid()` is true iff `s + k < n`; the loop `reset(0); while (valid()) next();`
runs exactly `n` iterations and `valid()` is false afterwards; for `n = 3`, `valid()` is true at
`i = 0, 1, 2` and false after three `next()` calls. -/
theorem range_iter_spec (r : RangeIter) (n s k : Nat) (hk : s + k < SIZE_MOD)
    (hn : n < SIZE_MOD) :
    ((RangeIter.next^[k] ((r.set_size n).reset s)).valid = true ↔ s + k < n) ∧
    (∀ fuel, n + 1 ≤ fuel →
      RangeIter.while_valid_next fuel ((r.set_size n).reset 0) = some (n, { i := n, n := n })) ∧
    RangeIter.valid { i := n, n := n } = false ∧
    ((RangeIter.next^[0] ((r.set_size 3).reset 0)).valid = true ∧
      (RangeIter.next^[1] ((r.set_size 3).reset 0)).valid = true ∧
      (RangeIter.next^[2] ((r.set_size 3).reset 0)).valid = true ∧
      (RangeIter.next^[3] ((r.set_size 3).reset 0)).valid = false) := by
  refine ⟨?_, ?_, by simp [RangeIter.valid], ?_⟩
  · obtain ⟨h1, h2⟩ := range_iter_iterate ((r.set_size n).reset s) k hk
    simp only [RangeIter.valid, h1, h2, decide_eq_true_eq]
    rfl
  · intro fuel hfuel
    exact while_valid_next_from n hn n 0 fuel (by omega) hfuel
  · refine ⟨?_, ?_, ?_, ?_⟩ <;>
      simp [RangeIter.valid, RangeIter.next, RangeIter.reset, RangeIter.set_size, size_t_add,
        SIZE_MOD]

/-- Witness for C12: size 3, start 1, one call of `next()`. -/
theorem range_iter_spec_witness :
    1 + 1 < SIZE_MOD ∧ 3 < SIZE_MOD ∧
    ((RangeIter.next^[1] (((⟨7, 9⟩ : RangeIter).set_size 3).reset 1)).valid = true ↔ 1 + 1 < 3) ∧
    RangeIter.while_valid_next 4 (((⟨7, 9⟩ : RangeIter).set_size 3).reset 0)
      = some (3, { i := 3, n := 3 }) :=
  ⟨by decide, by decide, (range_iter_spec ⟨7, 9⟩ 3 1 1 (by decide) (by decide)).1,
    (range_iter_spec ⟨7, 9⟩ 3 1 1 (by decide) (by decide)).2.1 4 (by decide)⟩

/-! ## Further properties of the status protocol -/

/-- C14: at every rank `r`, two flag assignments that agree on rank `r` and, when `r ≠ 0`, on
rank `r-1` give the same `keep_iterating()` and the same `previous_is_iterating()`: the flags of
all other ranks have no influence. -/
theorem status_depends_on_two_flags (r : Int) (flags flags1 : Int → Bool)
    (hown : flags r = flags1 r) (hprev : r ≠ 0 → flags (r - 1) = flags1 (r - 1)) :
    (status_at r flags).keep_iterating = (status_at r flags1).keep_iterating ∧
    (status_at r flags).previous_is_iterating = (status_at r flags1).previous_is_iterating := by
  by_cases h0 : r = 0
  · subst h0
    simp [IStatus.keep_iterating, IStatus.previous_is_iterating, status_at, hown]
  · simp [IStatus.keep_iterating, IStatus.previous_is_iterating, status_at, h0, hown,
      hprev h0]

/-- Witness for C14: rank 2, two assignments that differ on ranks 0 and 5 only. -/
theorem status_depends_on_two_flags_witness :
    (status_at 2 flags_one_two).keep_iterating
      = (status_at 2 (fun i => decide (i = 0 ∨ i = 1 ∨ i = 2 ∨ i = 5))).keep_iterating ∧
    (status_at 2 flags_one_two).previous_is_iterating
      = (status_at 2 (fun i => decide (i = 0 ∨ i = 1 ∨ i = 2 ∨ i = 5))).previous_is_iterating :=
  status_depends_on_two_flags 2 flags_one_two
    (fun i => decide (i = 0 ∨ i = 1 ∨ i = 2 ∨ i = 5)) (by decide) (fun _ => by decide)

/-- C15, as the code has it: at every rank `r > 0`, if `keep_iterating()` is false then rank
`r` and rank `r-1` have both converged, so `previous_is_iterating()` is false at rank `r`; for
`r = 1` also `keep_iterating()` at rank 0 is false. -/
theorem stop_implies_previous_converged (r : Int) (hr : 0 < r) (flags : Int → Bool)
    (hstop : (status_at r flags).keep_iterating = false) :
    flags r = true ∧ flags (r - 1) = true ∧
    (status_at r flags).previous_is_iterating = false ∧
    (r = 1 → (status_at (r - 1) flags).keep_iterating = false) := by
  have hne : r ≠ 0 := ne_of_gt hr
  have h : flags r = true ∧ flags (r - 1) = true := by
    simpa [IStatus.keep_iterating, status_at, hne] using hstop
  refine ⟨h.1, h.2, ?_, ?_⟩
  · simp [IStatus.previous_is_iterating, status_at, hne, h.2]
  · intro h1
    subst h1
    have h0 : flags 0 = true := by simpa using h.2
    simp [IStatus.keep_iterating, status_at, h0]

/-- Witness for C15: rank 2 stops when ranks 1 and 2 have converged. -/
theorem stop_implies_previous_converged_witness :
    (0 : Int) < 2 ∧ (status_at 2 flags_one_two).keep_iterating = false ∧
    (status_at 2 flags_one_two).previous_is_iterating = false :=
  ⟨by decide, by decide,
    (stop_implies_previous_converged 2 (by decide) flags_one_two (by decide)).2.2.1⟩

/-- Counterexample to C15: with ranks 1 and 2 converged and rank 0 not, `keep_iterating()` is
false at rank 2 but true at its upstream neighbour, rank 1. -/
theorem stop_implies_previous_converged_counterexample :
    (0 : Int) < 2 ∧
    (status_at 2 flags_one_two).keep_iterating = false ∧
    (status_at (2 - 1) flags_one_two).keep_iterating = true := by
  decide

/-! ## Further properties of the controller -/

/-- C17, as the code has it: `advance_time(k)` and `set_step(n)` leave the iteration index as
it is, for every `k` and `n`; it is 0 after `set_duration` and after `set_iteration(0)`, and it
stays 0 through `advance_time`/`set_step` when it was reset before. -/
theorem iteration_untouched_by_time_calls {K S T : Type} [Field K] (c : Controller K S T)
    (k n niters : Nat) (t0 tend dt : K) :
    (c.advance_time k).get_iteration = c.get_iteration ∧
    (c.set_step n).get_iteration = c.get_iteration ∧
    (c.set_duration t0 tend dt niters).get_iteration = 0 ∧
    (c.set_iteration 0).get_iteration = 0 ∧
    ((c.set_iteration 0).advance_time k).get_iteration = 0 ∧
    ((c.set_iteration 0).set_step n).get_iteration = 0 :=
  ⟨rfl, rfl, rfl, rfl, rfl, rfl⟩

/-- Counterexample to C17: one iteration into step 1, `advance_time(1)` and `set_step(5)` both
leave `get_iteration() = 1`. -/
theorem iteration_untouched_by_time_calls_counterexample :
    in_first_iteration.get_step = 1 ∧ in_first_iteration.get_iteration = 1 ∧
    1 ≤ 1 ∧ (in_first_iteration.advance_time 1).get_iteration = 1 ∧
    (in_first_iteration.advance_time 1).get_iteration ≠ 0 ∧
    5 ≠ in_first_iteration.get_step ∧ (in_first_iteration.set_step 5).get_iteration = 1 ∧
    (in_first_iteration.set_step 5).get_iteration ≠ 0 := by
  decide

/-- Invariant behind C16: if every index `≥ 1` holds a non-null transfer and a null transfer at
index 0 excludes later coarse-end insertions, the same is true after any call sequence in which
a null transfer comes only with the last coarse-end insertion. -/
theorem add_levels_invariant {K S T : Type} [Field K] (calls : List (AddLevelCall S T)) :
    ∀ c : Controller K S T,
      (∀ i, 1 ≤ i → c.transfer[i]? ≠ some none) →
      (c.transfer[0]? = some none → ∀ k ∈ calls, k.coarse = false) →
      null_only_at_last_coarse_end calls →
      ∀ i, 1 ≤ i → (c.add_levels calls).transfer[i]? ≠ some none := by
  induction calls with
  | nil => intro c h1 _ _; exact h1
  | cons k rest ih =>
    intro c h1 h0 hcalls
    obtain ⟨hk, hrest⟩ := hcalls
    have hstep : c.add_levels (k :: rest)
        = (c.add_level k.swpr k.trnsfr k.coarse).add_levels rest := rfl
    rw [hstep]
    cases hc : k.coarse with
    | true =>
      have hold0 : c.transfer[0]? ≠ some none := by
        intro hnull
        have := h0 hnull k (List.mem_cons_self _ _)
        rw [hc] at this
        exact Bool.noConfusion this
      apply ih _ _ _ hrest
      · intro i hi
        obtain ⟨j, rfl⟩ : ∃ j, i = j + 1 := ⟨i - 1, by omega⟩
        simp only [Controller.add_level, hc, if_true, List.getElem?_cons_succ]
        cases j with
        | zero => exact hold0
        | succ j => exact h1 (j + 1) (by omega)
      · intro hnull
        have hkn : k.trnsfr = none := by
          simpa [Controller.add_level, hc] using hnull
        exact (hk hkn).2
    | false =>
      have hkt : k.trnsfr ≠ none := by
        intro hkn
        have := (hk hkn).1
        rw [hc] at this
        exact Bool.noConfusion this
      have hget : ∀ i : Nat, (c.add_level k.swpr k.trnsfr false).transfer[i]? = some none →
          c.transfer[i]? = some none := by
        intro i hi
        simp only [Controller.add_level, Bool.false_eq_true, if_false] at hi
        rcases Nat.lt_or_ge i c.transfer.length with hlt | hge
        · rwa [List.getElem?_append_left hlt] at hi
        · rw [List.getElem?_append_right hge] at hi
          rcases Nat.eq_zero_or_pos (i - c.transfer.length) with hz | hp
          · rw [hz] at hi
            simp only [List.getElem?_cons_zero, Option.some.injEq] at hi
            exact absurd hi hkt
          · obtain ⟨j, hj⟩ : ∃ j, i - c.transfer.length = j + 1 := ⟨_, (Nat.succ_pred_eq_of_pos hp).symm⟩
            rw [hj] at hi
            simp at hi
      apply ih _ _ _ hrest
      · intro i hi hnull
        exact h1 i hi (hget i hnull)
      · intro hnull k1 hk1
        exact h0 (hget 0 hnull) k1 (List.mem_cons_of_mem _ hk1)

/-- C16, with the condition the code needs: when a null transfer is passed only on a call that
inserts at the coarse end and is followed by no further coarse-end insertion, the hierarchy
built from an empty controller holds a non-null transfer at every index `i ≥ 1`. -/
theorem null_transfer_only_at_coarsest {K S T : Type} [Field K]
    (calls : List (AddLevelCall S T)) (h : null_only_at_last_coarse_end calls) (i : Nat)
    (hi : 1 ≤ i) :
    ((Controller.new : Controller K S T).add_levels calls).transfer[i]? ≠ some none ∧
    (i < ((Controller.new : Controller K S T).add_levels calls).nlevels →
      ∃ t : T, ((Controller.new : Controller K S T).add_levels calls).transfer[i]?
        = some (some t)) := by
  have hne := add_levels_invariant calls (Controller.new : Controller K S T)
    (fun j _ => by simp [Controller.new]) (fun h0 => by simp [Controller.new] at h0) h i hi
  refine ⟨hne, ?_⟩
  intro hlt
  have hlen : ∀ (cs : List (AddLevelCall S T)) (c : Controller K S T),
      c.levels.length = c.transfer.length →
      (c.add_levels cs).levels.length = (c.add_levels cs).transfer.length := by
    intro cs
    induction cs with
    | nil => intro c hc; exact hc
    | cons k rest ih =>
      intro c hc
      apply ih
      cases hk : k.coarse <;> simp [Controller.add_level, hc, hk]
  have hlen0 := hlen calls (Controller.new : Controller K S T) rfl
  have hlt2 : i < ((Controller.new : Controller K S T).add_levels calls).transfer.length := by
    rw [← hlen0]
    exact hlt
  cases hx : ((Controller.new : Controller K S T).add_levels calls).transfer[i]? with
  | none =>
    rw [List.getElem?_eq_none_iff] at hx
    omega
  | some p =>
    cases p with
    | none => exact absurd hx hne
    | some t => exact ⟨t, rfl⟩

/-- Witness for C16: a coarse-end call with the null transfer, then a fine-end call. -/
theorem null_transfer_only_at_coarsest_witness :
    null_only_at_last_coarse_end coarse_then_fine_calls ∧
    ((Controller.new : Controller ℚ Nat Nat).add_levels coarse_then_fine_calls).transfer[1]?
      ≠ some none :=
  ⟨by simp [null_only_at_last_coarse_end, coarse_then_fine_calls],
    (null_transfer_only_at_coarsest coarse_then_fine_calls
      (by simp [null_only_at_last_coarse_end, coarse_then_fine_calls]) 1 (by decide)).1⟩

/-- Counterexample to C16: two calls `add_level(s)` with the default arguments pass a null
transfer only at the coarse end, and the stored transfer at index 1 is null. -/
theorem null_transfer_only_at_coarsest_counterexample :
    null_only_at_coarse_end two_default_calls ∧
    ((Controller.new : Controller ℚ Nat Nat).add_levels two_default_calls).nlevels = 2 ∧
    ((Controller.new : Controller ℚ Nat Nat).add_levels two_default_calls).transfer[1]?
      = some none := by
  refine ⟨?_, rfl, rfl⟩
  intro k hk _
  simp only [two_default_calls, List.mem_cons, List.mem_singleton, List.not_mem_nil,
    or_false] at hk
  rcases hk with rfl | rfl <;> rfl

/-! ## `LevelIter::fine` and `LevelIter::coarse` -/

section MatApplyCalls

variable {K Ptr σ : Type}

/-- Running a loop whose body runs a list of steps is running the concatenated steps. -/
theorem foldlM_flatMap_steps {α β : Type} (g : σ → β → Except Failure σ) (h : α → List β)
    (l : List α) :
    ∀ st : σ, l.foldlM (fun st a => (h a).foldlM g st) st = (l.flatMap h).foldlM g st := by
  induction l with
  | nil => intro st; rfl
  | cons a rest ih =>
    intro st
    rw [List.foldlM_cons, List.flatMap_cons, List.foldlM_append]
    cases (h a).foldlM g st with
    | error e => rfl
    | ok st1 => exact ih st1

/-- Counting in a concatenation of lists. -/
theorem countP_flatMap_sum {α β : Type} (p : β → Bool) (h : α → List β) (l : List α) :
    (l.flatMap h).countP p = (l.map (fun a => (h a).countP p)).sum := by
  induction l with
  | nil => rfl
  | cons a rest ih => rw [List.flatMap_cons, List.countP_append, ih, List.map_cons, List.sum_cons]

/-- The body of the inner loop of `mat_apply` at valid indices issues the one call prescribed
for the entry, or none. -/
theorem mat_apply_body_eq [Field K] [DecidableEq K] (E : EncapMethods K Ptr σ)
    (dst : List Ptr) (a : K) (mat : Nat → Nat → K) (src : List Ptr) (n : Fin dst.length)
    (m : Fin src.length) (st : σ) :
    mat_apply_body E dst a mat src n st m =
      (if mat n m ≠ 0 then [EncapCall.saxpy (dst.get n) (a * mat n m) (src.get m)]
        else []).foldlM (EncapCall.run E) st := by
  have hd : dst[(n : Nat)]? = some (dst.get n) := List.getElem?_eq_getElem n.isLt
  have hs : src[(m : Nat)]? = some (src.get m) := List.getElem?_eq_getElem m.isLt
  unfold mat_apply_body
  by_cases h : mat n m = 0
  · simp [h]
  · simp only [ne_eq, h, not_false_eq_true, if_true, hd, hs, List.foldlM_cons, List.foldlM_nil,
      EncapCall.run, bind, Except.bind]
    cases E.saxpy (dst.get n) (a * mat n m) (src.get m) st <;> rfl

/-- For every method table and every state, `mat_apply` is the prescribed call sequence run
from first to last, stopping at the first call that fails. -/
theorem mat_apply_eq_calls [Field K] [DecidableEq K] (E : EncapMethods K Ptr σ)
    (dst : List Ptr) (a : K) (mat : Nat → Nat → K) (src : List Ptr) (zero : Bool) (st : σ) :
    mat_apply E dst a mat src zero st =
      (mat_apply_calls dst a mat src zero).foldlM (EncapCall.run E) st := by
  have hloops : ∀ st1 : σ,
      (List.range dst.length).foldlM
        (fun st n => (List.range src.length).foldlM (mat_apply_body E dst a mat src n) st) st1 =
      ((List.finRange dst.length).flatMap (fun n =>
        (List.finRange src.length).flatMap (fun m =>
          if mat n m ≠ 0 then [EncapCall.saxpy (dst.get n) (a * mat n m) (src.get m)]
          else []))).foldlM (EncapCall.run E) st1 := by
    intro st1
    rw [← List.map_coe_finRange dst.length, List.foldlM_map, ← foldlM_flatMap_steps]
    congr 1
    funext st2 n
    rw [← List.map_coe_finRange src.length, List.foldlM_map, ← foldlM_flatMap_steps]
    congr 1
    funext st3 m
    exact mat_apply_body_eq E dst a mat src n m st3
  unfold mat_apply mat_apply_calls
  cases zero with
  | false =>
    simp only [Bool.false_eq_true, if_false, List.nil_append, bind, Except.bind, pure,
      Except.pure]
    exact hloops st
  | true =>
    simp only [if_true, List.foldlM_append, List.foldlM_map]
    have hz : (fun st elem => E.zero elem st)
        = (fun (x : σ) (y : Ptr) => EncapCall.run E x (EncapCall.zero y)) := rfl
    rw [hz]
    cases List.foldlM (fun (x : σ) (y : Ptr) => EncapCall.run E x (EncapCall.zero y)) st dst with
    | error e => rfl
    | ok st1 => exact hloops st1

/-- The recording method table appends the calls it is given. -/
theorem recording_run (calls : List (EncapCall K Ptr)) :
    ∀ log : List (EncapCall K Ptr),
      calls.foldlM (EncapCall.run (recording_methods K Ptr)) log = .ok (log ++ calls) := by
  induction calls with
  | nil => intro log; simp [pure, Except.pure]
  | cons c rest ih =>
    intro log
    rw [List.foldlM_cons]
    cases c with
    | zero p =>
      have h1 : EncapCall.run (recording_methods K Ptr) log (EncapCall.zero p)
          = .ok (log ++ [EncapCall.zero p]) := rfl
      rw [h1]
      simp only [bind, Except.bind]
      rw [ih]
      simp
    | saxpy p c x =>
      have h1 : EncapCall.run (recording_methods K Ptr) log (EncapCall.saxpy p c x)
          = .ok (log ++ [EncapCall.saxpy p c x]) := rfl
      rw [h1]
      simp only [bind, Except.bind]
      rw [ih]
      simp

/-- The number of `saxpy` calls in the prescribed sequence is the number of non-zero entries
of the matrix within its `dst.size() × src.size()` shape. -/
theorem mat_apply_calls_count [Field K] [DecidableEq K] (dst : List Ptr) (a : K)
    (mat : Nat → Nat → K) (src : List Ptr) (zero : Bool) :
    (mat_apply_calls dst a mat src zero).countP EncapCall.is_saxpy =
      (Finset.univ.filter
        (fun p : Fin dst.length × Fin src.length => mat p.1 p.2 ≠ 0)).card := by
  have hz : (if zero = true then dst.map (EncapCall.zero : Ptr → EncapCall K Ptr) else []).countP
      EncapCall.is_saxpy = 0 := by
    cases zero with
    | false => rfl
    | true =>
      simp only [if_true, List.countP_map]
      rw [List.countP_eq_zero]
      intro p _
      simp [EncapCall.is_saxpy]
  unfold mat_apply_calls
  rw [List.countP_append, hz, Nat.zero_add, countP_flatMap_sum, Finset.card_filter,
    Fintype.sum_prod_type, Fin.sum_univ_def]
  congr 1
  apply List.map_congr_left
  intro n _
  rw [countP_flatMap_sum, Fin.sum_univ_def]
  congr 1
  apply List.map_congr_left
  intro m _
  by_cases h : mat n m = 0 <;> simp [h, EncapCall.is_saxpy]

end MatApplyCalls

section MatApplyClaims

variable {K Ptr σ : Type}

/-- With the default `zero()`/`saxpy()` every call fails, so a call sequence returns normally
(and leaves the state alone) exactly when it is empty. -/
theorem default_run (calls : List (EncapCall K Ptr)) (st : σ) :
    (calls = [] → calls.foldlM (EncapCall.run (Encapsulation.default_methods K Ptr σ)) st
      = .ok st) ∧
    (calls ≠ [] → calls.foldlM (EncapCall.run (Encapsulation.default_methods K Ptr σ)) st
      = .error (.NotImplementedYet "encap")) := by
  cases calls with
  | nil => exact ⟨fun _ => rfl, fun h => absurd rfl h⟩
  | cons c rest =>
    refine ⟨fun h => absurd h (List.cons_ne_nil _ _), fun _ => ?_⟩
    rw [List.foldlM_cons]
    cases c <;> rfl

/-- The prescribed call sequence is empty exactly when nothing is zeroed and every entry of the
matrix within its shape is zero. -/
theorem mat_apply_calls_eq_nil [Field K] [DecidableEq K] (dst : List Ptr) (a : K)
    (mat : Nat → Nat → K) (src : List Ptr) (zero : Bool) :
    mat_apply_calls dst a mat src zero = [] ↔
      ¬ ((zero = true ∧ dst ≠ []) ∨
        ∃ n m : Nat, n < dst.length ∧ m < src.length ∧ mat n m ≠ 0) := by
  unfold mat_apply_calls
  rw [List.append_eq_nil, List.flatMap_eq_nil_iff, not_or]
  constructor
  · rintro ⟨hz, hb⟩
    refine ⟨?_, ?_⟩
    · rintro ⟨h1, h2⟩
      rw [h1] at hz
      simp only [if_true, List.map_eq_nil_iff] at hz
      exact h2 hz
    · rintro ⟨n, m, hn, hm, hne⟩
      have h1 := hb ⟨n, hn⟩ (List.mem_finRange _)
      rw [List.flatMap_eq_nil_iff] at h1
      have h2 := h1 ⟨m, hm⟩ (List.mem_finRange _)
      simp only [ne_eq, hne, not_false_eq_true, if_true] at h2
      exact absurd h2 (List.cons_ne_nil _ _)
  · rintro ⟨hz, hb⟩
    refine ⟨?_, ?_⟩
    · cases zero with
      | false => rfl
      | true =>
        simp only [if_true, List.map_eq_nil_iff]
        by_contra hne
        exact hz ⟨rfl, hne⟩
    · intro n _
      rw [List.flatMap_eq_nil_iff]
      intro m _
      by_cases h : mat n m = 0
      · simp [h]
      · exact absurd ⟨n, m, n.isLt, m.isLt, h⟩ hb

/-- C19: for every input, every method table and every state, `mat_apply` issues the calls of
`mat_apply_calls` from first to last: with `zero` set, `zero()` on `dst[0], dst[1], ...` before
any `saxpy`; then for `n` ascending and within each `n` for `m` ascending one
`dst[n].saxpy(a * M[n,m], src[m])` per entry `M[n,m] ≠ 0` and nothing for `M[n,m] = 0`.  The
number of `saxpy` calls is the number of non-zero entries of `M`, also when `a = 0`. -/
theorem mat_apply_call_order [Field K] [DecidableEq K] (dst : List Ptr) (a : K)
    (mat : Nat → Nat → K) (src : List Ptr) (zero : Bool) :
    (∀ (τ : Type) (E : EncapMethods K Ptr τ) (st : τ),
      mat_apply E dst a mat src zero st =
        (mat_apply_calls dst a mat src zero).foldlM (EncapCall.run E) st) ∧
    (∀ log : List (EncapCall K Ptr),
      mat_apply (recording_methods K Ptr) dst a mat src zero log =
        .ok (log ++ mat_apply_calls dst a mat src zero)) ∧
    mat_apply_calls dst a mat src true =
      dst.map EncapCall.zero ++ mat_apply_calls dst a mat src false ∧
    (∀ call ∈ mat_apply_calls dst a mat src false, call.is_saxpy = true) ∧
    (mat_apply_calls dst a mat src zero).countP EncapCall.is_saxpy =
      (Finset.univ.filter
        (fun p : Fin dst.length × Fin src.length => mat p.1 p.2 ≠ 0)).card ∧
    (mat_apply_calls dst 0 mat src zero).countP EncapCall.is_saxpy =
      (Finset.univ.filter
        (fun p : Fin dst.length × Fin src.length => mat p.1 p.2 ≠ 0)).card := by
  refine ⟨fun τ E st => mat_apply_eq_calls E dst a mat src zero st, ?_, ?_, ?_,
    mat_apply_calls_count dst a mat src zero, mat_apply_calls_count dst 0 mat src zero⟩
  · intro log
    rw [mat_apply_eq_calls]
    exact recording_run _ log
  · simp [mat_apply_calls]
  · intro call hcall
    simp only [mat_apply_calls, Bool.false_eq_true, if_false, List.nil_append,
      List.mem_flatMap] at hcall
    obtain ⟨n, _, m, _, hm⟩ := hcall
    by_cases h : mat n m = 0
    · simp [h] at hm
    · simp only [ne_eq, h, not_false_eq_true, if_true, List.mem_singleton] at hm
      rw [hm]
      rfl

/-- C20: on states that keep the default `zero()`/`saxpy()`, `mat_apply` fails with
`NotImplementedYet` iff `zero` is set and `dst` is non-empty, or some entry `M[n,m]` with
`n < dst.size()` and `m < src.size()` is non-zero; it never fails in another way, and in the
remaining case it returns normally with the state unchanged. -/
theorem mat_apply_default_methods [Field K] [DecidableEq K] (dst : List Ptr) (a : K)
    (mat : Nat → Nat → K) (src : List Ptr) (zero : Bool) (st : σ) :
    (mat_apply (Encapsulation.default_methods K Ptr σ) dst a mat src zero st
        = .error (.NotImplementedYet "encap") ↔
      ((zero = true ∧ dst ≠ []) ∨
        ∃ n m : Nat, n < dst.length ∧ m < src.length ∧ mat n m ≠ 0)) ∧
    (∀ e, mat_apply (Encapsulation.default_methods K Ptr σ) dst a mat src zero st = .error e →
      e = .NotImplementedYet "encap") ∧
    (¬ ((zero = true ∧ dst ≠ []) ∨
        ∃ n m : Nat, n < dst.length ∧ m < src.length ∧ mat n m ≠ 0) →
      mat_apply (Encapsulation.default_methods K Ptr σ) dst a mat src zero st = .ok st) := by
  have hnil := mat_apply_calls_eq_nil dst a mat src zero
  have hrun := @default_run K Ptr σ (mat_apply_calls dst a mat src zero) st
  rw [mat_apply_eq_calls]
  by_cases hc : mat_apply_calls dst a mat src zero = []
  · have hok := hrun.1 hc
    have hcond := hnil.1 hc
    rw [hok]
    refine ⟨⟨fun h => (nomatch h), fun h => absurd h hcond⟩, fun e h => (nomatch h),
      fun _ => rfl⟩
  · have herr := hrun.2 hc
    have hcond : (zero = true ∧ dst ≠ []) ∨
        ∃ n m : Nat, n < dst.length ∧ m < src.length ∧ mat n m ≠ 0 := by
      by_contra hneg
      exact hc (hnil.2 hneg)
    rw [herr]
    refine ⟨⟨fun _ => hcond, fun _ => rfl⟩, fun e h => (Except.error.inj h).symm,
      fun h => absurd hcond h⟩

/-- Witness for C20: `zero = false` and an all-zero `2 × 1` matrix. -/
theorem mat_apply_default_methods_witness :
    mat_apply (Encapsulation.default_methods ℚ Nat Nat) [0, 1] 2 (fun _ _ => 0) [2] false 7
      = .ok 7 :=
  (mat_apply_default_methods [0, 1] (2 : ℚ) (fun _ _ => 0) [2] false (7 : Nat)).2.2
    (by
      rintro (⟨h, _⟩ | ⟨n, m, _, _, h⟩)
      · exact Bool.noConfusion h
      · exact h rfl)

end MatApplyClaims

/-! ## `Controller::setup` -/

section Setup

variable {K S T : Type}

/-- One round of the loop of `setup()` at a level that holds the sweeper `s`: the two calls are
recorded in order and the back-reference of `s` is set. -/
theorem setup_body_ok [Field K] [DecidableEq S] (c : Controller K S T)
    (beyond : Nat → Except Failure (Option S)) (this : Nat)
    (sweeper_setup : S → Bool → SweeperWorld S → Except Failure (SweeperWorld S))
    (coarse_default : Bool)
    (hsetup : ∀ s b w0, ∃ w1, sweeper_setup s b w0 = .ok w1 ∧
      w1.controller = w0.controller ∧ w1.events = w0.events)
    (i : Nat) (hi : i < 2 ^ 31) (s : S) (hs : c.levels[i]? = some (some s))
    (w : SweeperWorld S) :
    ∃ w1, c.setup_body beyond this sweeper_setup coarse_default (cursor_at i) w = .ok w1 ∧
      w1.events = w.events ++
        [SetupEvent.set_controller i s this, SetupEvent.setup i s coarse_default] ∧
      w1.controller = Function.update w.controller s (some this) := by
  have hidx : int_to_size_t (cursor_at i).level = i :=
    int_to_size_t_natCast i (by unfold SIZE_MOD; omega)
  have hcur : (cursor_at i).current c beyond (fun _ => true) = .ok (some s) := by
    unfold LevelIter.current
    rw [hidx]
    exact (get_from_deque c.levels beyond (fun _ => true) i).1 s hs rfl
  obtain ⟨w1, hrun, hctrl, hev⟩ := hsetup s coarse_default
    (((ISweeper.set_controller s (some this) w).record
      (SetupEvent.set_controller i s this)).record (SetupEvent.setup i s coarse_default))
  refine ⟨w1, ?_, ?_, ?_⟩
  · unfold Controller.setup_body
    simp only [hcur, hidx, bind, Except.bind, pure, Except.pure]
    exact hrun
  · rw [hev]
    simp [SweeperWorld.record, ISweeper.set_controller]
  · rw [hctrl]
    rfl

/-- The loop of `setup()` started at cursor `i`, with the sweepers `rest` stored from index `i`
on: it returns normally, having recorded `setup_events i rest` and set the back-reference of
exactly the sweepers in `rest`. -/
theorem setup_from_ok [Field K] [DecidableEq S] (c : Controller K S T)
    (beyond : Nat → Except Failure (Option S)) (this : Nat)
    (sweeper_setup : S → Bool → SweeperWorld S → Except Failure (SweeperWorld S))
    (coarse_default : Bool) (sw : List S)
    (hlt : c.nlevels < 2 ^ 31) (hpos : 1 ≤ c.nlevels) (hsw : c.levels = sw.map some)
    (hsetup : ∀ s b w0, ∃ w1, sweeper_setup s b w0 = .ok w1 ∧
      w1.controller = w0.controller ∧ w1.events = w0.events) (d : Nat) :
    ∀ (i fuel : Nat) (w : SweeperWorld S), i + d = c.nlevels → d + 1 ≤ fuel →
      ∃ w1, c.setup_from beyond this sweeper_setup coarse_default fuel (cursor_at i) w
          = some (.ok w1) ∧
        w1.events = w.events ++ setup_events this coarse_default i (sw.drop i) ∧
        (∀ s ∈ sw.drop i, w1.controller s = some this) ∧
        (∀ s, s ∉ sw.drop i → w1.controller s = w.controller s) := by
  have hlen : sw.length = c.nlevels := by
    unfold Controller.nlevels
    rw [hsw, List.length_map]
  have hfin := finest_level c hpos hlt
  induction d with
  | zero =>
    intro i fuel w hi hfuel
    obtain ⟨f, rfl⟩ : ∃ f, fuel = f + 1 := ⟨fuel - 1, by omega⟩
    have hnle : ¬ ((cursor_at i).level ≤ c.finest.level) := by
      rw [hfin]
      simp only [cursor_at]
      omega
    have hdrop : sw.drop i = [] := List.drop_eq_nil_of_le (by omega)
    refine ⟨w, ?_, ?_, ?_, ?_⟩
    · simp [Controller.setup_from, LevelIter.le, hnle]
    · rw [hdrop]
      simp [setup_events]
    · rw [hdrop]
      intro s hs
      exact absurd hs (List.not_mem_nil s)
    · intro s _
      rfl
  | succ d ih =>
    intro i fuel w hi hfuel
    obtain ⟨f, rfl⟩ : ∃ f, fuel = f + 1 := ⟨fuel - 1, by omega⟩
    have hilt : i < sw.length := by omega
    have hle : (cursor_at i).level ≤ c.finest.level := by
      rw [hfin]
      simp only [cursor_at]
      omega
    have hincr : LevelIter.incr (cursor_at i) = cursor_at (i + 1) := by
      unfold LevelIter.incr cursor_at
      simp only
      rw [wrap_int_small _ (by omega) (by omega)]
      rfl
    have hs : c.levels[i]? = some (some sw[i]) := by
      rw [hsw, List.getElem?_map, List.getElem?_eq_getElem hilt]
      rfl
    have hdrop : sw.drop i = sw[i] :: sw.drop (i + 1) := List.drop_eq_getElem_cons hilt
    obtain ⟨w1, hbody, hev1, hctrl1⟩ :=
      setup_body_ok c beyond this sweeper_setup coarse_default hsetup i (by omega) sw[i] hs w
    obtain ⟨w2, hrun, hev2, hin, hout⟩ := ih (i + 1) f w1 (by omega) (by omega)
    refine ⟨w2, ?_, ?_, ?_, ?_⟩
    · simp only [Controller.setup_from, LevelIter.le, hle, decide_True, if_true, hbody, hincr]
      exact hrun
    · rw [hev2, hev1, hdrop]
      simp [setup_events]
    · intro s hsmem
      rw [hdrop] at hsmem
      by_cases hrest : s ∈ sw.drop (i + 1)
      · exact hin s hrest
      · rw [hout s hrest, hctrl1]
        rcases List.mem_cons.1 hsmem with heq | hmem
        · rw [heq]
          exact Function.update_same _ _ _
        · exact absurd hmem hrest
    · intro s hsnot
      rw [hdrop] at hsnot
      have hne : s ≠ sw[i] := fun e => hsnot (e ▸ List.mem_cons_self _ _)
      have hrest : s ∉ sw.drop (i + 1) := fun hm => hsnot (List.mem_cons_of_mem _ hm)
      rw [hout s hrest, hctrl1]
      exact Function.update_noteq hne _ _

end Setup

section SetupClaims

variable {K S T : Type}

/-- On the empty hierarchy `finest()` sits at `-1`. -/
theorem finest_level_empty [Field K] (c : Controller K S T) (h : c.nlevels = 0) :
    c.finest.level = -1 := by
  unfold Controller.finest
  rw [h]
  decide

/-- The prescribed calls, read by position: the calls number `2j` and `2j+1` are
`set_controller` and `setup` on the `j`-th sweeper, at level index `i + j`. -/
theorem setup_events_get (this : Nat) (coarse_default : Bool) (sw : List S) :
    ∀ (i j : Nat) (hj : j < sw.length),
      (setup_events this coarse_default i sw)[2 * j]?
        = some (SetupEvent.set_controller (i + j) sw[j] this) ∧
      (setup_events this coarse_default i sw)[2 * j + 1]?
        = some (SetupEvent.setup (i + j) sw[j] coarse_default) := by
  induction sw with
  | nil => intro i j hj; exact absurd hj (Nat.not_lt_zero _)
  | cons s rest ih =>
    intro i j hj
    cases j with
    | zero => exact ⟨by simp [setup_events], by simp [setup_events]⟩
    | succ j =>
      have hj1 : j < rest.length := Nat.lt_of_succ_lt_succ hj
      obtain ⟨h1, h2⟩ := ih (i + 1) j hj1
      have e1 : 2 * (j + 1) = (2 * j) + 1 + 1 := by omega
      have e2 : 2 * (j + 1) + 1 = (2 * j + 1) + 1 + 1 := by omega
      have e3 : i + 1 + j = i + (j + 1) := by omega
      refine ⟨?_, ?_⟩
      · rw [e1]
        simp only [setup_events, List.getElem?_cons_succ, List.getElem_cons_succ]
        rw [h1, e3]
      · rw [e2]
        simp only [setup_events, List.getElem?_cons_succ, List.getElem_cons_succ]
        rw [h2, e3]

/-- The prescribed calls are two per level. -/
theorem setup_events_length (this : Nat) (coarse_default : Bool) (sw : List S) :
    ∀ i : Nat, (setup_events this coarse_default i sw).length = 2 * sw.length := by
  induction sw with
  | nil => intro i; rfl
  | cons s rest ih =>
    intro i
    simp only [setup_events, List.length_cons, ih (i + 1)]
    omega

/-- C13, for hierarchies of fewer than `2^31` levels that hold non-null sweepers `sw` whose
`setup` returns normally and leaves back-references alone (as the default `ISweeper::setup`
does): `Controller::setup()` returns normally after visiting the level indices
`0, 1, ..., nlevels()-1` in increasing order, each once, calling at each level first
`set_controller(this)` and then `setup()` on the sweeper stored there; afterwards
`get_controller()` on every level returns this controller, no other sweeper is touched, and on
the empty hierarchy nothing happens. -/
theorem setup_spec [Field K] [DecidableEq S] (c : Controller K S T)
    (beyond : Nat → Except Failure (Option S)) (this : Nat)
    (sweeper_setup : S → Bool → SweeperWorld S → Except Failure (SweeperWorld S))
    (coarse_default : Bool) (sw : List S) (w : SweeperWorld S)
    (hlt : c.nlevels < 2 ^ 31) (hsw : c.levels = sw.map some)
    (hsetup : ∀ s b w0, ∃ w1, sweeper_setup s b w0 = .ok w1 ∧
      w1.controller = w0.controller ∧ w1.events = w0.events)
    (fuel : Nat) (hfuel : c.nlevels + 1 ≤ fuel) :
    ∃ w1, c.setup beyond this sweeper_setup coarse_default fuel w = some (.ok w1) ∧
      w1.events = w.events ++ setup_events this coarse_default 0 sw ∧
      (setup_events this coarse_default 0 sw).length = 2 * c.nlevels ∧
      (∀ (j : Nat) (hj : j < sw.length),
        (setup_events this coarse_default 0 sw)[2 * j]?
          = some (SetupEvent.set_controller j sw[j] this) ∧
        (setup_events this coarse_default 0 sw)[2 * j + 1]?
          = some (SetupEvent.setup j sw[j] coarse_default)) ∧
      (∀ s ∈ sw, ISweeper.get_controller s w1 = .ok this) ∧
      (∀ s, s ∉ sw → w1.controller s = w.controller s) ∧
      (c.nlevels = 0 → w1 = w) := by
  have hlen : sw.length = c.nlevels := by
    unfold Controller.nlevels
    rw [hsw, List.length_map]
  have hget : ∀ (j : Nat) (hj : j < sw.length),
      (setup_events this coarse_default 0 sw)[2 * j]?
        = some (SetupEvent.set_controller j sw[j] this) ∧
      (setup_events this coarse_default 0 sw)[2 * j + 1]?
        = some (SetupEvent.setup j sw[j] coarse_default) := by
    intro j hj
    have := setup_events_get this coarse_default sw 0 j hj
    simpa using this
  have hcount : (setup_events this coarse_default 0 sw).length = 2 * c.nlevels := by
    rw [setup_events_length, hlen]
  rcases Nat.eq_zero_or_pos c.nlevels with h0 | hpos
  · obtain ⟨f, rfl⟩ : ∃ f, fuel = f + 1 := ⟨fuel - 1, by omega⟩
    have hnil : sw = [] := List.length_eq_zero.1 (hlen.trans h0)
    have hnle : ¬ (c.coarsest.level ≤ c.finest.level) := by
      rw [finest_level_empty c h0]
      simp [Controller.coarsest]
    refine ⟨w, ?_, ?_, hcount, hget, ?_, fun _ _ => rfl, fun _ => rfl⟩
    · simp [Controller.setup, Controller.setup_from, LevelIter.le, hnle]
    · rw [hnil]
      simp [setup_events]
    · intro s hs
      rw [hnil] at hs
      exact absurd hs (List.not_mem_nil s)
  · obtain ⟨w1, hrun, hev, hin, hout⟩ :=
      setup_from_ok c beyond this sweeper_setup coarse_default sw hlt hpos hsw hsetup c.nlevels 0
        fuel w
        (by omega) hfuel
    rw [List.drop_zero] at hev hin hout
    refine ⟨w1, hrun, hev, hcount, hget, ?_, hout, fun h0 => by omega⟩
    intro s hs
    unfold ISweeper.get_controller
    rw [hin s hs]

/-- Witness for C13: the two-level hierarchy `two_levels`, controller address 7, the default
`ISweeper::setup`. -/
theorem setup_spec_witness :
    two_levels.nlevels < 2 ^ 31 ∧ two_levels.levels = [10, 11].map some ∧
    ∃ w1, two_levels.setup stray_pointer 7 (fun _ b w => ISweeper.setup b w) false 3
        SweeperWorld.initial
        = some (.ok w1) ∧
      w1.events = [SetupEvent.set_controller 0 10 7, SetupEvent.setup 0 10 false,
        SetupEvent.set_controller 1 11 7, SetupEvent.setup 1 11 false] ∧
      ISweeper.get_controller 10 w1 = .ok 7 ∧ ISweeper.get_controller 11 w1 = .ok 7 := by
  refine ⟨by decide, rfl, ?_⟩
  obtain ⟨w1, hrun, hev, _, _, hctrl, _, _⟩ :=
    setup_spec two_levels stray_pointer 7 (fun _ b w => ISweeper.setup b w) false [10, 11]
      SweeperWorld.initial (by decide) rfl (fun s b w0 => ⟨w0, rfl, rfl, rfl⟩) 3 (by decide)
  exact ⟨w1, hrun, by simpa [setup_events, SweeperWorld.initial] using hev,
    hctrl 10 (by decide), hctrl 11 (by decide)⟩

/-- The cursor `finest()` of `huge_hierarchy`. -/
theorem huge_hierarchy_finest : huge_hierarchy.finest.level = -2 ^ 31 := by
  have hn : huge_hierarchy.nlevels = 2 ^ 31 + 1 := by
    unfold huge_hierarchy Controller.nlevels
    exact List.length_replicate _ _
  unfold Controller.finest
  rw [hn]
  decide

/-- Counterexample to C13 as stated for every hierarchy: (a) with `2^31 + 1` levels the loop
body never runs, so `get_controller()` on the sweeper of level 0 still fails afterwards;
(b) on a level that holds the null pointer `setup()` fails at `current()`; (c) when a sweeper's
own `setup` fails, `setup()` fails with it after the first level. -/
theorem setup_spec_counterexample :
    (huge_hierarchy.levels[0]? = some (some 0) ∧
      (∀ fuel, huge_hierarchy.setup stray_pointer 7 (fun _ b w => ISweeper.setup b w) false
        (fuel + 1)
        SweeperWorld.initial = some (.ok SweeperWorld.initial)) ∧
      ISweeper.get_controller 0 (SweeperWorld.initial : SweeperWorld Nat)
        = .error Failure.assertion) ∧
    (null_level.nlevels = 1 ∧
      ∀ fuel, null_level.setup stray_pointer 7 (fun _ b w => ISweeper.setup b w) false
        (fuel + 1)
        SweeperWorld.initial = some (.error Failure.assertion)) ∧
    (∀ fuel, two_levels.setup stray_pointer 7
        (fun _ _ _ => .error (Failure.ValueError "setup")) false
        (fuel + 1) SweeperWorld.initial = some (.error (Failure.ValueError "setup"))) := by
  refine ⟨⟨?_, ?_, rfl⟩, ⟨rfl, ?_⟩, ?_⟩
  · unfold huge_hierarchy
    exact List.getElem?_replicate_of_lt (by decide)
  · intro fuel
    have hle : LevelIter.le { level := 0 } huge_hierarchy.finest = false := by
      unfold LevelIter.le
      rw [huge_hierarchy_finest]
      decide
    unfold Controller.setup Controller.coarsest
    rw [Controller.setup_from, hle]
    rfl
  · intro fuel
    rfl
  · intro fuel
    rfl

end SetupClaims

/-! ## `set_step` against `advance_time` -/

/-- The `size_t` difference between a wrapped sum and its first summand is the second
summand. -/
theorem size_t_sub_add_cancel (s k : Nat) (hs : s < SIZE_MOD) (hk : k < SIZE_MOD) :
    size_t_sub (size_t_add s k) s = k := by
  unfold size_t_sub size_t_add
  unfold SIZE_MOD at *
  omega

/-- C21: for every controller state and every `k`, `set_step(get_step() + k)`, with the sum
computed in `size_t`, and `advance_time(k)` produce the same controller state: the step index
is `(get_step() + k) mod 2^64`, the time is `t + k*dt`, and every other member is unchanged;
this includes the case in which `get_step() + k` wraps around. -/
theorem set_step_eq_advance_time {K S T : Type} [Field K] (c : Controller K S T) (k : Nat)
    (hs : c.get_step < SIZE_MOD) (hk : k < SIZE_MOD) :
    c.set_step (size_t_add c.get_step k) = c.advance_time k ∧
    (c.set_step (size_t_add c.get_step k)).get_step = (c.get_step + k) % SIZE_MOD ∧
    (c.advance_time k).get_step = (c.get_step + k) % SIZE_MOD ∧
    (c.set_step (size_t_add c.get_step k)).get_time = c.get_time + (k : K) * c.get_time_step ∧
    (c.advance_time k).get_time = c.get_time + (k : K) * c.get_time_step ∧
    (SIZE_MOD ≤ c.get_step + k →
      (c.set_step (size_t_add c.get_step k)).get_step = c.get_step + k - SIZE_MOD) := by
  have hsub : size_t_sub (size_t_add c.step k) c.step = k := size_t_sub_add_cancel c.step k hs hk
  have heq : c.set_step (size_t_add c.get_step k) = c.advance_time k := by
    simp only [Controller.set_step, Controller.advance_time, Controller.get_step, hsub]
  refine ⟨heq, rfl, rfl, ?_, rfl, ?_⟩
  · rw [heq]
    rfl
  · intro hwrap
    simp only [Controller.set_step, Controller.get_step, size_t_add] at *
    unfold SIZE_MOD at *
    omega

/-- Witness for C21 at a wrapping sum: from step `2^64 - 1`, `k = 2` leads to step 1 either
way. -/
theorem set_step_eq_advance_time_witness :
    at_last_step.get_step < SIZE_MOD ∧ 2 < SIZE_MOD ∧
    SIZE_MOD ≤ at_last_step.get_step + 2 ∧
    at_last_step.set_step (size_t_add at_last_step.get_step 2) = at_last_step.advance_time 2 ∧
    (at_last_step.set_step (size_t_add at_last_step.get_step 2)).get_step = 1 :=
  ⟨by decide, by decide, by decide,
    (set_step_eq_advance_time at_last_step 2 (by decide) (by decide)).1,
    ((set_step_eq_advance_time at_last_step 2 (by decide) (by decide)).2.2.2.2.2
      (by decide)).trans (by decide)⟩

end pfasst
